import Mathlib

/-!
Verification of the sanitongo MongoDB query sanitizer against its design
specification.  The development shallowly embeds the schema-validation module
(`src/sanitongo/schema.py`) and, where a component is referenced only through
its interface (the layer classes of `sanitongo.layers` and the exception
hierarchy of `sanitongo.exceptions`, which are not part of the available
sources), models it from the specification.

Python values are embedded as the inductive `Value` tree the spec's data
model describes; Python exceptions become an error inductive `SanErr` and
raising becomes returning `Except.error`.
-/

/-- The value tree all layers operate on: JSON-ish data decoded from the
caller's query. `datetime` stands for a native datetime-like Python object
(an object carrying a `year` attribute); its payload is the year.  `float`
carries a rational stand-in for the numeric value. -/
inductive Value where
  | null
  | bool (b : Bool)
  | int (n : Int)
  | float (q : ℚ)
  | str (s : String)
  | list (xs : List Value)
  | dict (entries : List (String × Value))
  | datetime (year : Int)

/-- One step of a path into a `Value` tree: a document field or an array index. -/
inductive PathStep where
  | field (name : String)
  | index (i : Nat)
deriving DecidableEq, Repr

/-- Modelled from the spec: the error taxonomy of section 7 (the module
`sanitongo/exceptions.py` is not part of the available sources, only its
importers are).  ValidationError carries a message; SchemaViolationError
carries `field_path` and `schema_rule` as the spec requires; SecurityError
identifies a disallowed operator and its path; PatternError carries
`pattern_type` and the path of the offending leaf; ComplexityError carries
`limit_type`, `current_value`, `max_allowed`. -/
inductive SanErr where
  | validationError (msg : String)
  | schemaViolationError (msg : String) (field_path : String) (schema_rule : String)
  | securityError (operator : String) (path : List PathStep)
  | patternError (pattern_type : String) (path : List PathStep)
  | complexityError (limit_type : String) (current_value : Nat) (max_allowed : Nat)
deriving DecidableEq, Repr

/-- Modelled from the spec: which taxonomy members an `except ValidationError`
clause catches.  Per section 7 a nested-schema violation is surfaced to the
caller as a SchemaViolationError still carrying `field_path` and
`schema_rule` ("no error taxonomy member ever silently vanishes"), so
SchemaViolationError must refine ValidationError: the re-raise filter in
`SchemaValidator.validate_query` passes it through unmodified. -/
def isValidationError : SanErr → Bool
  | .validationError _ => true
  | .schemaViolationError _ _ _ => true
  | _ => false

/-- Python `str(e)` on an exception: its message. -/
def errStr : SanErr → String
  | .validationError m => m
  | .schemaViolationError m _ _ => m
  | .securityError op _ => "Dangerous operator detected: " ++ op
  | .patternError pt _ => "Dangerous pattern detected: " ++ pt
  | .complexityError lt _ _ => "Query complexity exceeded: " ++ lt

/-- Python `value is None`: the identity test against the `None` singleton. -/
def Value.isNull : Value → Bool
  | .null => true
  | _ => false

/-- Python `dict.get` restricted to string keys: first matching entry. -/
def dictGet : List (String × Value) → String → Option Value
  | [], _ => none
  | (k, v) :: rest, f => if k = f then some v else dictGet rest f

/-- `query.get(field_name)` as used by `validate_query`: a missing key yields
Python `None`, which is the same value `null` a present-but-null key yields. -/
def pyGet (q : List (String × Value)) (f : String) : Value :=
  (dictGet q f).getD .null

/-- Python truthiness of an `int | None` option (`None` and `0` are falsy). -/
def truthyInt : Option Int → Bool
  | none => false
  | some n => n ≠ 0

/-- Python truthiness of a `list | None` option (`None` and `[]` are falsy). -/
def truthyList {α : Type} : Option (List α) → Bool
  | none => false
  | some l => !l.isEmpty

/-- Python `type(value).__name__` over the embedded value variants. -/
def pyTypeName : Value → String
  | .null => "NoneType"
  | .bool _ => "bool"
  | .int _ => "int"
  | .float _ => "float"
  | .str _ => "str"
  | .list _ => "list"
  | .dict _ => "dict"
  | .datetime _ => "datetime"

/-- Numeric view shared by `bool`, `int` and `float` for Python `==`
(Python booleans are the integers 0 and 1 for comparison purposes). -/
def valToRat : Value → Option ℚ
  | .bool b => some (if b then 1 else 0)
  | .int n => some (n : ℚ)
  | .float q => some q
  | _ => none

mutual
/-- Python `==` over embedded values: numbers compare across `bool`/`int`/
`float` by numeric value; strings, `None` and datetimes compare by content;
lists compare pointwise; dicts compare as key-value mappings. -/
def pyEq : Value → Value → Bool
  | a, b =>
    match valToRat a, valToRat b with
    | some x, some y => x = y
    | _, _ =>
      match a, b with
      | .null, .null => true
      | .str x, .str y => x = y
      | .datetime x, .datetime y => x = y
      | .list xs, .list ys => pyEqList xs ys
      | .dict xs, .dict ys => xs.length = ys.length && pyEqEntries xs ys
      | _, _ => false

def pyEqList : List Value → List Value → Bool
  | [], [] => true
  | x :: xs, y :: ys => pyEq x y && pyEqList xs ys
  | _, _ => false

def pyEqEntries : List (String × Value) → List (String × Value) → Bool
  | [], _ => true
  | (k, v) :: rest, other =>
    (match dictGet other k with
     | some w => pyEq v w
     | none => false) && pyEqEntries rest other
end

/-- Python `value in values` membership, which tests `==` elementwise. -/
def pyIn (v : Value) (values : List Value) : Bool :=
  values.any (fun e => pyEq v e)

mutual
/-- Python `repr` over embedded values, used when a list of allowed values is
interpolated into an error message. -/
def pyRepr : Value → String
  | .null => "None"
  | .bool b => if b then "True" else "False"
  | .int n => toString n
  | .float q => toString q
  | .str s => "\x27" ++ s ++ "\x27"
  | .list xs => "[" ++ pyReprList xs ++ "]"
  | .dict es => "\x7b" ++ pyReprEntries es ++ "\x7d"
  | .datetime y => "datetime.datetime(" ++ toString y ++ ")"

def pyReprList : List Value → String
  | [] => ""
  | [x] => pyRepr x
  | x :: rest => pyRepr x ++ ", " ++ pyReprList rest

def pyReprEntries : List (String × Value) → String
  | [] => ""
  | [(k, v)] => "\x27" ++ k ++ "\x27: " ++ pyRepr v
  | (k, v) :: rest => "\x27" ++ k ++ "\x27: " ++ pyRepr v ++ ", " ++ pyReprEntries rest
end

/-- Python `repr` of a list of strings, as interpolated by
`f"Unknown fields in query: {sorted(unknown_fields)}"`. -/
def reprStrList (l : List String) : String :=
  "[" ++ String.intercalate ", " (l.map (fun s => "\x27" ++ s ++ "\x27")) ++ "]"

/-- Insert into a sorted list of strings (code-point order, as Python). -/
def insertSorted (s : String) : List String → List String
  | [] => [s]
  | t :: ts => if s ≤ t then s :: t :: ts else t :: insertSorted s ts

/-- Python `sorted` on strings. -/
def sortStrings : List String → List String
  | [] => []
  | s :: ss => insertSorted s (sortStrings ss)

/-- Membership in the hex alphabet used by `_is_valid_object_id`:
`c in "0123456789abcdefABCDEF"`. -/
def isHexDigitPy (c : Char) : Bool :=
  ("0123456789abcdefABCDEF".toList).contains c

/-- `FieldRule._is_valid_object_id`: a MongoDB ObjectId is a 24-character
hex string. -/
def isValidObjectId : Value → Bool
  | .str s => s.length = 24 && s.toList.all isHexDigitPy
  | _ => false

/-- The Unicode decimal-digit (category Nd) code-point ranges, as stored in
CPython's `unicodedata` tables: `\d` in a `str` pattern compiled without
`re.ASCII` — as in `_is_valid_datetime` — matches exactly these characters. -/
def ndRanges : List (Nat × Nat) := [
  (48, 57), (1632, 1641), (1776, 1785), (1984, 1993),
  (2406, 2415), (2534, 2543), (2662, 2671), (2790, 2799),
  (2918, 2927), (3046, 3055), (3174, 3183), (3302, 3311),
  (3430, 3439), (3558, 3567), (3664, 3673), (3792, 3801),
  (3872, 3881), (4160, 4169), (4240, 4249), (6112, 6121),
  (6160, 6169), (6470, 6479), (6608, 6617), (6784, 6793),
  (6800, 6809), (6992, 7001), (7088, 7097), (7232, 7241),
  (7248, 7257), (42528, 42537), (43216, 43225), (43264, 43273),
  (43472, 43481), (43504, 43513), (43600, 43609), (44016, 44025),
  (65296, 65305), (66720, 66729), (68912, 68921), (69734, 69743),
  (69872, 69881), (69942, 69951), (70096, 70105), (70384, 70393),
  (70736, 70745), (70864, 70873), (71248, 71257), (71360, 71369),
  (71472, 71481), (71904, 71913), (72016, 72025), (72784, 72793),
  (73040, 73049), (73120, 73129), (92768, 92777), (92864, 92873),
  (93008, 93017), (120782, 120831), (123200, 123209), (123632, 123641),
  (125264, 125273), (130032, 130041)]

/-- Python regex `\d` on a `str` pattern: any Unicode decimal digit. -/
def pyIsDigit (c : Char) : Bool :=
  ndRanges.any (fun r => decide (r.1 ≤ c.toNat) && decide (c.toNat ≤ r.2))

/-- Consume exactly `n` decimal digits (regex `\d{n}`). -/
def eatDigits : Nat → List Char → Option (List Char)
  | 0, cs => some cs
  | _ + 1, [] => none
  | n + 1, c :: cs => if pyIsDigit c then eatDigits n cs else none

/-- Consume one expected literal character. -/
def eatExact (ch : Char) : List Char → Option (List Char)
  | [] => none
  | c :: cs => if c = ch then some cs else none

/-- Python regex `$` without `re.MULTILINE`: matches at the end of the
string, or just before one newline that ends the string. -/
def endAnchor (cs : List Char) : Bool :=
  cs.isEmpty || cs = ['\n']

/-- Tail of the ISO pattern after the seconds: `(Z|[+-]\d{2}:\d{2})?$`.  When
the optional zone group is not taken, `$` must hold at the current spot; the
group cannot start with a character `$` accepts, so greedy choice of the
group is equivalent to the regex. -/
def isoZoneEnd (cs : List Char) : Bool :=
  match cs with
  | [] => true
  | 'Z' :: rest => endAnchor rest
  | c :: rest =>
    if c = '+' || c = '-' then
      match (eatDigits 2 rest).bind (eatExact ':') |>.bind (eatDigits 2) with
      | some remaining => endAnchor remaining
      | none => false
    else endAnchor cs

/-- Optional fractional seconds then zone: `(\.\d+)?(Z|[+-]\d{2}:\d{2})?$`.
The fractional group is greedy; the zone group and `$` never accept a digit,
so greedy digit consumption is equivalent to the regex. -/
def isoTail (cs : List Char) : Bool :=
  match cs with
  | '.' :: rest =>
    if (rest.takeWhile pyIsDigit).isEmpty then false
    else isoZoneEnd (rest.dropWhile pyIsDigit)
  | _ => isoZoneEnd cs

/-- The anchored ISO-8601 shape compiled by `_is_valid_datetime`, decided
with `re.match` semantics: `^\d-\d-\dT\d:\d:\d(\.\d+)?(Z|[+-]\d:\d)?$` with
fixed digit-group widths 4-2-2 / 2-2-2 / 2-2, `\d` any Unicode decimal digit
and `$` also matching before one trailing newline. -/
def isoMatch (s : String) : Bool :=
  let afterDate :=
    (eatDigits 4 s.toList).bind (eatExact '-') |>.bind (eatDigits 2)
      |>.bind (eatExact '-') |>.bind (eatDigits 2)
  let afterTime :=
    afterDate.bind (eatExact 'T') |>.bind (eatDigits 2) |>.bind (eatExact ':')
      |>.bind (eatDigits 2) |>.bind (eatExact ':') |>.bind (eatDigits 2)
  match afterTime with
  | some rest => isoTail rest
  | none => false

/-- Modelled from the spec's words, for comparison with the source-faithful
`isoMatch`: consume exactly `n` ASCII decimal digits. -/
def specEatDigits : Nat → List Char → Option (List Char)
  | 0, cs => some cs
  | _ + 1, [] => none
  | n + 1, c :: cs => if c.isDigit then specEatDigits n cs else none

/-- Modelled from the spec's words: the zone tail of a strict ISO-8601
string, with nothing at all allowed after the optional zone. -/
def specIsoZoneEnd (cs : List Char) : Bool :=
  match cs with
  | [] => true
  | 'Z' :: rest => rest.isEmpty
  | c :: rest =>
    if c = '+' || c = '-' then
      match (specEatDigits 2 rest).bind (eatExact ':') |>.bind (specEatDigits 2) with
      | some remaining => remaining.isEmpty
      | none => false
    else false

/-- Modelled from the spec's words: optional fractional seconds, then the
zone tail, of a strict ISO-8601 string. -/
def specIsoTail (cs : List Char) : Bool :=
  match cs with
  | '.' :: rest =>
    if (rest.takeWhile Char.isDigit).isEmpty then false
    else specIsoZoneEnd (rest.dropWhile Char.isDigit)
  | _ => specIsoZoneEnd cs

/-- Modelled from the spec's words: a strict ISO-8601 string — date, `T`,
time, optional fractional seconds, optional `Z` or numeric UTC offset — made
of ASCII digits and ending right after the zone. -/
def specIso8601 (s : String) : Bool :=
  let afterDate :=
    (specEatDigits 4 s.toList).bind (eatExact '-') |>.bind (specEatDigits 2)
      |>.bind (eatExact '-') |>.bind (specEatDigits 2)
  let afterTime :=
    afterDate.bind (eatExact 'T') |>.bind (specEatDigits 2) |>.bind (eatExact ':')
      |>.bind (specEatDigits 2) |>.bind (eatExact ':') |>.bind (specEatDigits 2)
  match afterTime with
  | some rest => specIsoTail rest
  | none => false

/-- Does the value carry a `year` attribute?  Duck typing as in
`_is_valid_datetime`: of the embedded value variants only the native
datetime-like object does. -/
def hasAttrYear : Value → Bool
  | .datetime _ => true
  | _ => false

/-- `FieldRule._is_valid_datetime`: ISO-shaped strings or datetime-like
objects. -/
def isValidDatetime : Value → Bool
  | .str s => isoMatch s
  | v => hasAttrYear v

/-- `FieldType`: supported field types for schema validation. -/
inductive FieldType where
  | string
  | integer
  | float
  | boolean
  | objectid
  | datetime
  | array
  | object
  | any
deriving DecidableEq, Repr

/-- The `.value` string of each `FieldType` enum member. -/
def FieldType.value : FieldType → String
  | .string => "string"
  | .integer => "integer"
  | .float => "float"
  | .boolean => "boolean"
  | .objectid => "objectid"
  | .datetime => "datetime"
  | .array => "array"
  | .object => "object"
  | .any => "any"

/-- A Python class usable as the second argument of `isinstance` in
`_check_type`'s `type_mapping` (the `FLOAT` entry is the tuple `(int, float)`). -/
inductive PyClass where
  | str
  | int
  | intOrFloat
  | bool
  | list
  | dict
deriving DecidableEq, Repr

/-- Python `isinstance` over the embedded variants.  `bool` is a subclass of
`int` in Python, so booleans pass `isinstance(value, int)` and numeric checks. -/
def pyIsinstance : Value → PyClass → Bool
  | .str _, .str => true
  | .bool _, .int => true
  | .int _, .int => true
  | .bool _, .intOrFloat => true
  | .int _, .intOrFloat => true
  | .float _, .intOrFloat => true
  | .bool _, .bool => true
  | .list _, .list => true
  | .dict _, .dict => true
  | _, _ => false

/-- The `type_mapping` dictionary of `FieldRule._check_type`. -/
def typeMapping : FieldType → Option PyClass
  | .string => some .str
  | .integer => some .int
  | .float => some .intOrFloat
  | .boolean => some .bool
  | .array => some .list
  | .object => some .dict
  | _ => none

/-- `FieldRule`: validation rules for a single field, as built by the
`FieldRule.__init__` of `schema.py`.  A compiled `re.Pattern` is embedded as
its `match` predicate over the string; `nested_schema` is the (possibly
empty) field-rule mapping after the constructor's `nested_schema or {}`. -/
inductive FieldRule where
  | mk
    (field_type : FieldType)
    (required : Bool)
    (allowed_values : Option (List Value))
    (min_length : Option Int)
    (max_length : Option Int)
    (pattern : Option (String → Bool))
    (nested_schema : List (String × FieldRule))
    (array_item_type : Option FieldType)
    (description : Option String)

def FieldRule.field_type : FieldRule → FieldType
  | .mk t _ _ _ _ _ _ _ _ => t

def FieldRule.required : FieldRule → Bool
  | .mk _ r _ _ _ _ _ _ _ => r

def FieldRule.allowed_values : FieldRule → Option (List Value)
  | .mk _ _ a _ _ _ _ _ _ => a

def FieldRule.min_length : FieldRule → Option Int
  | .mk _ _ _ mn _ _ _ _ _ => mn

def FieldRule.max_length : FieldRule → Option Int
  | .mk _ _ _ _ mx _ _ _ _ => mx

def FieldRule.pattern : FieldRule → Option (String → Bool)
  | .mk _ _ _ _ _ p _ _ _ => p

def FieldRule.nested_schema : FieldRule → List (String × FieldRule)
  | .mk _ _ _ _ _ _ ns _ _ => ns

def FieldRule.array_item_type : FieldRule → Option FieldType
  | .mk _ _ _ _ _ _ _ it _ => it

def FieldRule.description : FieldRule → Option String
  | .mk _ _ _ _ _ _ _ _ d => d

/-- `FieldRule(field_type)` with every other constructor argument left at its
default, as `validate_value` builds for array items. -/
def mkFieldRule (ft : FieldType) : FieldRule :=
  .mk ft false none none none none [] none none

/-- `FieldRule._check_type`: `ANY` matches everything; the `type_mapping`
classes are checked with `isinstance`; `OBJECT_ID` and `DATETIME` use the
dedicated helpers; the final `return False` is unreachable for enum members. -/
def FieldRule.checkType (rule : FieldRule) (value : Value) : Bool :=
  if rule.field_type = .any then true
  else
    match typeMapping rule.field_type with
    | some cls => pyIsinstance value cls
    | none =>
      if rule.field_type = .objectid then isValidObjectId value
      else if rule.field_type = .datetime then isValidDatetime value
      else false

/-- Membership of a string in a list of strings (Python `in` on keys). -/
def containsStr : List String → String → Bool
  | [], _ => false
  | x :: rest, k => x = k || containsStr rest k

/-- Python `set(...)` formation on keys: one occurrence per distinct key.
Which occurrence survives is irrelevant to the embedding, since set
membership and the `sorted(...)` rendering are insensitive to it; this
keeps the last one. -/
def dedupKeys : List String → List String
  | [] => []
  | k :: rest => if containsStr rest k then dedupKeys rest else k :: dedupKeys rest

/-- `SchemaValidator`: owns the field-name → rule mapping and the derived
allowed-field set. -/
structure SchemaValidator where
  schema : List (String × FieldRule)
  allowedFields : List String

/-- `SchemaValidator.__init__`: stores the schema and derives
`self._allowed_fields = set(schema.keys())`. -/
def mkSchemaValidator (schema : List (String × FieldRule)) : SchemaValidator :=
  ⟨schema, dedupKeys (schema.map Prod.fst)⟩

/-- `f"{path_prefix}.{field_name}" if path_prefix else field_name`. -/
def joinPath (pfx : String) (fname : String) : String :=
  if pfx = "" then fname else pfx ++ "." ++ fname

theorem dictGet_sizeOf {q : List (String × Value)} {f : String} {v : Value}
    (h : dictGet q f = some v) : sizeOf v < sizeOf q := by
  induction q with
  | nil => simp [dictGet] at h
  | cons e rest ih =>
    obtain ⟨k, w⟩ := e
    simp only [dictGet] at h
    split at h
    · cases h; simp; omega
    · have := ih h; simp; omega

theorem pyGet_sizeOf (q : List (String × Value)) (f : String) :
    sizeOf (pyGet q f) < sizeOf q + 1 := by
  unfold pyGet
  cases hg : dictGet q f with
  | none => simp [Option.getD]; cases q <;> simp <;> omega
  | some v =>
    have := dictGet_sizeOf hg
    simp [Option.getD]
    omega

/-- The string-specific validations of `validate_value` (length bounds and
pattern), guarded by `self.field_type == FieldType.STRING and
isinstance(value, str)`.  The zero-is-falsy `if self.min_length:` and
`if self.max_length:` guards are kept as in the source. -/
def stringChecks (rule : FieldRule) (value : Value) (fieldPath : String) :
    Except SanErr Unit :=
  if rule.field_type = .string then
    match value with
    | .str s =>
      if truthyInt rule.min_length ∧ (s.length : Int) < rule.min_length.getD 0 then
        .error (.validationError ("Field \x27" ++ fieldPath ++ "\x27 is too short. " ++
          "Minimum length: " ++ toString (rule.min_length.getD 0)))
      else if truthyInt rule.max_length ∧ (s.length : Int) > rule.max_length.getD 0 then
        .error (.validationError ("Field \x27" ++ fieldPath ++ "\x27 is too long. " ++
          "Maximum length: " ++ toString (rule.max_length.getD 0)))
      else if rule.pattern.isSome ∧ (rule.pattern.getD (fun _ => true)) s = false then
        .error (.validationError ("Field \x27" ++ fieldPath ++
          "\x27 does not match required pattern"))
      else .ok ()
    | _ => .ok ()
  else .ok ()

mutual
/-- `FieldRule.validate_value`: the null/required gate, then the type check,
the allowed-value membership, the string-specific constraints, the per-item
array validation and the nested-schema object validation, in source order.
Raising is returning `Except.error`. -/
def validateValue (rule : FieldRule) (value : Value) (fieldPath : String) :
    Except SanErr Unit :=
  if value.isNull ∧ rule.required = false then .ok ()
  else if value.isNull ∧ rule.required = true then
    .error (.validationError ("Required field \x27" ++ fieldPath ++ "\x27 is missing"))
  else if rule.checkType value = false then
    .error (.validationError ("Field \x27" ++ fieldPath ++ "\x27 has invalid type. " ++
      "Expected " ++ rule.field_type.value ++ ", got " ++ pyTypeName value))
  else if truthyList rule.allowed_values ∧
      pyIn value (rule.allowed_values.getD []) = false then
    .error (.validationError ("Field \x27" ++ fieldPath ++ "\x27 has invalid value. " ++
      "Must be one of: " ++ pyRepr (.list (rule.allowed_values.getD []))))
  else
    match stringChecks rule value fieldPath with
    | .error e => .error e
    | .ok () =>
      match
        (if rule.field_type = .array then
          match value with
          | .list xs =>
            match rule.array_item_type with
            | some itemType => validateItems itemType xs fieldPath 0
            | none => .ok ()
          | _ => .ok ()
        else .ok ()) with
      | .error e => .error e
      | .ok () =>
        if rule.field_type = .object then
          match value with
          | .dict d =>
            if rule.nested_schema.isEmpty then .ok ()
            else validateQuery (mkSchemaValidator rule.nested_schema) (.dict d) fieldPath
          | _ => .ok ()
        else .ok ()
termination_by (sizeOf value, 3, 0)
decreasing_by
  all_goals first
    | (apply Prod.Lex.left; exact pyGet_sizeOf _ _)
    | (simp [Prod.lex_def]; try omega)

/-- The per-element loop of the array validation:
`for i, item in enumerate(value): FieldRule(item_type).validate_value(item,
f"{field_path}[{i}]")`. -/
def validateItems (itemType : FieldType) (xs : List Value) (fieldPath : String)
    (i : Nat) : Except SanErr Unit :=
  match xs with
  | [] => .ok ()
  | item :: rest =>
    match validateValue (mkFieldRule itemType) item
        (fieldPath ++ "[" ++ toString i ++ "]") with
    | .error e => .error e
    | .ok () => validateItems itemType rest fieldPath (i + 1)
termination_by (sizeOf xs, 1, 0)
decreasing_by
  all_goals first
    | (apply Prod.Lex.left; exact pyGet_sizeOf _ _)
    | (simp [Prod.lex_def]; try omega)

/-- `SchemaValidator.validate_query`: the dictionary-shape gate, the
unknown-field check against `_allowed_fields`, then the per-field rule
validation. -/
def validateQuery (sv : SchemaValidator) (query : Value) (pfx : String) :
    Except SanErr Unit :=
  match query with
  | .dict q =>
    let unknown := (dedupKeys (q.map Prod.fst)).filter
      (fun k => !(containsStr sv.allowedFields k))
    if unknown.isEmpty then validateFields sv.schema q pfx
    else
      .error (.schemaViolationError
        ("Unknown fields in query: " ++ reprStrList (sortStrings unknown))
        pfx "allowed_fields")
  | _ => .error (.validationError "Query must be a dictionary")
termination_by (sizeOf query, 2, 0)
decreasing_by
  all_goals first
    | (apply Prod.Lex.left; exact pyGet_sizeOf _ _)
    | (simp [Prod.lex_def]; try omega)

/-- The `for field_name, field_rule in self.schema.items():` loop of
`validate_query`: look the field up with `query.get`, validate it, re-raise
ValidationErrors and wrap any other exception. -/
def validateFields (fields : List (String × FieldRule))
    (q : List (String × Value)) (pfx : String) : Except SanErr Unit :=
  match fields with
  | [] => .ok ()
  | (fname, frule) :: rest =>
    let fieldPath := joinPath pfx fname
    match validateValue frule (pyGet q fname) fieldPath with
    | .ok () => validateFields rest q pfx
    | .error e =>
      if isValidationError e then .error e
      else
        .error (.validationError ("Validation failed for field \x27" ++ fieldPath ++
          "\x27: " ++ errStr e))
termination_by (sizeOf q + 1, 1, sizeOf fields)
decreasing_by
  all_goals first
    | (apply Prod.Lex.left; exact pyGet_sizeOf _ _)
    | (simp [Prod.lex_def]; try omega)
end

instance decEqExcept {ε α : Type} [DecidableEq ε] [DecidableEq α] :
    DecidableEq (Except ε α)
  | .ok a, .ok b =>
    if h : a = b then .isTrue (by rw [h])
    else .isFalse (fun hc => by cases hc; exact h rfl)
  | .error a, .error b =>
    if h : a = b then .isTrue (by rw [h])
    else .isFalse (fun hc => by cases hc; exact h rfl)
  | .ok _, .error _ => .isFalse (fun hc => by cases hc)
  | .error _, .ok _ => .isFalse (fun hc => by cases hc)

/-- The string `msg` mentions `p` verbatim (used to state that error messages
name the offending field path). -/
def mentions (p msg : String) : Prop :=
  ∃ a b, msg = a ++ p ++ b

/-- Replace the value stored under the first occurrence of key `f`; leave the
dictionary unchanged when the key is absent. -/
def setKeyIfPresent : List (String × Value) → String → Value → List (String × Value)
  | [], _, _ => []
  | (k, w) :: rest, f, v =>
    if k = f then (k, v) :: rest else (k, w) :: setKeyIfPresent rest f v

/-- Replace the `nested_schema` component of a rule (the only component a
nested validation run could reach through aliasing). -/
def FieldRule.setNested : FieldRule → List (String × FieldRule) → FieldRule
  | .mk t r a mn mx p _ it d, ns => .mk t r a mn mx p ns it d

mutual
/-- Heap-discipline variant of `validate_value`: alongside the result it
returns the post-state of the two objects the call can reach by reference,
the rule (`self`, whose `nested_schema` dictionary is aliased by the nested
`SchemaValidator`) and the value.  The Python method contains no assignment
to either, so each post-state is reassembled purely from the sub-calls;
proving the post-states equal the pre-states is the read-only frame property. -/
def validateValueT (rule : FieldRule) (value : Value) (fieldPath : String) :
    Except SanErr Unit × FieldRule × Value :=
  if value.isNull ∧ rule.required = false then (.ok (), rule, value)
  else if value.isNull ∧ rule.required = true then
    (.error (.validationError ("Required field \x27" ++ fieldPath ++ "\x27 is missing")),
      rule, value)
  else if rule.checkType value = false then
    (.error (.validationError ("Field \x27" ++ fieldPath ++ "\x27 has invalid type. " ++
      "Expected " ++ rule.field_type.value ++ ", got " ++ pyTypeName value)), rule, value)
  else if truthyList rule.allowed_values ∧
      pyIn value (rule.allowed_values.getD []) = false then
    (.error (.validationError ("Field \x27" ++ fieldPath ++ "\x27 has invalid value. " ++
      "Must be one of: " ++ pyRepr (.list (rule.allowed_values.getD [])))), rule, value)
  else
    match stringChecks rule value fieldPath with
    | .error e => (.error e, rule, value)
    | .ok () =>
      let ar := validateArrayT rule value fieldPath
      match ar.1 with
      | .error e => (.error e, rule, ar.2)
      | .ok () =>
        if rule.field_type = .object then
          -- a rule's type cannot be both array and object, so in this branch
          -- the array step above left the value untouched (ar.2 = value)
          validateObjectT rule value fieldPath
        else (.ok (), rule, ar.2)
termination_by (sizeOf value, 3, 0)
decreasing_by
  all_goals first
    | (apply Prod.Lex.left; exact pyGet_sizeOf _ _)
    | (simp [Prod.lex_def]; try omega)

/-- The array step of `validate_value` (per-item validation with the rule's
`array_item_type`); returns the post-state of the value. -/
def validateArrayT (rule : FieldRule) (value : Value) (fieldPath : String) :
    Except SanErr Unit × Value :=
  if rule.field_type = .array then
    match value with
    | .list xs =>
      match rule.array_item_type with
      | some itemType =>
        let ri := validateItemsT itemType xs fieldPath 0
        (ri.1, Value.list ri.2)
      | none => (.ok (), value)
    | _ => (.ok (), value)
  else (.ok (), value)
termination_by (sizeOf value, 2, 1)
decreasing_by
  all_goals first
    | (apply Prod.Lex.left; exact pyGet_sizeOf _ _)
    | (simp [Prod.lex_def]; try omega)

/-- The nested-schema step of `validate_value` (recursive validation of a
sub-document against the rule's `nested_schema`); returns the post-state of
the rule and of the value. -/
def validateObjectT (rule : FieldRule) (value : Value) (fieldPath : String) :
    Except SanErr Unit × FieldRule × Value :=
  match value with
  | .dict d =>
    if rule.nested_schema.isEmpty then (.ok (), rule, .dict d)
    else
      let rq := validateQueryT (mkSchemaValidator rule.nested_schema)
        (.dict d) fieldPath
      (rq.1, rule.setNested rq.2.1.schema, rq.2.2)
  | other => (.ok (), rule, other)
termination_by (sizeOf value, 2, 1)
decreasing_by
  all_goals first
    | (apply Prod.Lex.left; exact pyGet_sizeOf _ _)
    | (simp [Prod.lex_def]; try omega)

/-- Heap-discipline variant of the array-item loop: returns the post-state of
the list alongside the result. -/
def validateItemsT (itemType : FieldType) (xs : List Value) (fieldPath : String)
    (i : Nat) : Except SanErr Unit × List Value :=
  match xs with
  | [] => (.ok (), [])
  | item :: rest =>
    let rv := validateValueT (mkFieldRule itemType) item
      (fieldPath ++ "[" ++ toString i ++ "]")
    match rv.1 with
    | .error e => (.error e, rv.2.2 :: rest)
    | .ok () =>
      let rr := validateItemsT itemType rest fieldPath (i + 1)
      (rr.1, rv.2.2 :: rr.2)
termination_by (sizeOf xs, 1, 0)
decreasing_by
  all_goals first
    | (apply Prod.Lex.left; exact pyGet_sizeOf _ _)
    | (simp [Prod.lex_def]; try omega)

/-- Heap-discipline variant of `validate_query`: returns the post-state of the
validator (whose `schema` mapping holds the field rules by reference) and of
the query tree. -/
def validateQueryT (sv : SchemaValidator) (query : Value) (pfx : String) :
    Except SanErr Unit × SchemaValidator × Value :=
  match query with
  | .dict q =>
    let unknown := (dedupKeys (q.map Prod.fst)).filter
      (fun k => !(containsStr sv.allowedFields k))
    if unknown.isEmpty then
      let rf := validateFieldsT sv.schema q pfx
      (rf.1, ⟨rf.2.1, sv.allowedFields⟩, .dict rf.2.2)
    else
      (.error (.schemaViolationError
        ("Unknown fields in query: " ++ reprStrList (sortStrings unknown))
        pfx "allowed_fields"), sv, .dict q)
  | other => (.error (.validationError "Query must be a dictionary"), sv, other)
termination_by (sizeOf query, 2, 0)
decreasing_by
  all_goals first
    | (apply Prod.Lex.left; exact pyGet_sizeOf _ _)
    | (simp [Prod.lex_def]; try omega)

/-- Heap-discipline variant of the field loop.  Each field is read from the
original dictionary once; the post-value of that field is written back into
the post-dictionary produced by the remaining iteration (writes to distinct
keys are independent). -/
def validateFieldsT (fields : List (String × FieldRule))
    (q : List (String × Value)) (pfx : String) :
    Except SanErr Unit × List (String × FieldRule) × List (String × Value) :=
  match fields with
  | [] => (.ok (), [], q)
  | (fname, frule) :: rest =>
    let fieldPath := joinPath pfx fname
    let rv := validateValueT frule (pyGet q fname) fieldPath
    match rv.1 with
    | .error e =>
      ((if isValidationError e then .error e
        else .error (.validationError ("Validation failed for field \x27" ++ fieldPath ++
          "\x27: " ++ errStr e))),
       (fname, rv.2.1) :: rest, setKeyIfPresent q fname rv.2.2)
    | .ok () =>
      let rr := validateFieldsT rest q pfx
      (rr.1, (fname, rv.2.1) :: rr.2.1, setKeyIfPresent rr.2.2 fname rv.2.2)
termination_by (sizeOf q + 1, 1, sizeOf fields)
decreasing_by
  all_goals first
    | (apply Prod.Lex.left; exact pyGet_sizeOf _ _)
    | (simp [Prod.lex_def]; try omega)
end

/-- A layer's operating mode (section 4.1 of the spec). -/
inductive Mode where
  | strict
  | lenient
deriving DecidableEq, Repr

/-- A removed-item record: the path of the deleted content and the reason. -/
structure RemovedItem where
  path : List PathStep
  reason : String
deriving DecidableEq, Repr

/-- An Operator Key: a field name whose first character is the reserved
dollar sign (spec glossary). -/
def isOperatorKey (k : String) : Bool :=
  match k.data with
  | [] => false
  | c :: _ => c = '$'

/-- Modelled from the spec: the built-in default allow-list of common
comparison/logical operators used by OperatorFilter when no explicit
allow-list is configured (section 4.3; `sanitongo/layers.py` is not part of
the available sources). -/
def defaultAllowedOperators : List String :=
  ["$eq", "$ne", "$gt", "$gte", "$lt", "$lte", "$in", "$nin",
    "$and", "$or", "$not", "$exists"]

/-- Modelled from the spec: whether OperatorFilter permits an operator key.
Per section 4.3 the deny-list includes at minimum `$where` and everything not
in the effective allow-list; `$where` is never allowed regardless of
allow-list configuration. -/
def operatorPermitted (allowed : Option (List String)) (op : String) : Bool :=
  (op != "$where") &&
    (match allowed with
     | some l => containsStr l op
     | none => containsStr defaultAllowedOperators op)

mutual
/-- Modelled from the spec: the recursive traversal of OperatorFilter
(section 4.3).  Documents and arrays are traversed recursively; a document
key that is an operator key and not permitted raises a SecurityError
identifying operator and path in strict mode, and in lenient mode is deleted,
recorded as a removed item, and the remaining sibling keys are processed;
data fields are traversed into but never removed. -/
def filterOps (allowed : Option (List String)) (mode : Mode) :
    Value → List PathStep → Except SanErr (Value × List RemovedItem)
  | .dict es, path =>
    match filterOpsEntries allowed mode es path with
    | .error e => .error e
    | .ok (es', rem) => .ok (.dict es', rem)
  | .list xs, path =>
    match filterOpsList allowed mode xs path 0 with
    | .error e => .error e
    | .ok (xs', rem) => .ok (.list xs', rem)
  | v, _ => .ok (v, [])

def filterOpsEntries (allowed : Option (List String)) (mode : Mode) :
    List (String × Value) → List PathStep →
    Except SanErr (List (String × Value) × List RemovedItem)
  | [], _ => .ok ([], [])
  | (k, v) :: rest, path =>
    if isOperatorKey k && !operatorPermitted allowed k then
      match mode with
      | .strict => .error (.securityError k (path ++ [.field k]))
      | .lenient =>
        match filterOpsEntries allowed mode rest path with
        | .error e => .error e
        | .ok (rest', rem) =>
          .ok (rest', ⟨path ++ [.field k],
            "operator " ++ k ++ " is not allowed"⟩ :: rem)
    else
      match filterOps allowed mode v (path ++ [.field k]) with
      | .error e => .error e
      | .ok (v', remv) =>
        match filterOpsEntries allowed mode rest path with
        | .error e => .error e
        | .ok (rest', rem) => .ok ((k, v') :: rest', remv ++ rem)

def filterOpsList (allowed : Option (List String)) (mode : Mode) :
    List Value → List PathStep → Nat →
    Except SanErr (List Value × List RemovedItem)
  | [], _, _ => .ok ([], [])
  | v :: rest, path, i =>
    match filterOps allowed mode v (path ++ [.index i]) with
    | .error e => .error e
    | .ok (v', remv) =>
      match filterOpsList allowed mode rest path (i + 1) with
      | .error e => .error e
      | .ok (rest', rem) => .ok (v' :: rest', remv ++ rem)
end

mutual
/-- Modelled from the spec: the scan of PatternValidator (section 4.4) over
every string leaf — document values and array elements, not keys — against a
catalog of named danger detectors, each a predicate over the string.  On the
first detection it raises a PatternError carrying the detector name and the
path of the offending leaf; detection depends only on the catalog, never on
the orchestrator mode, and a scan without detection returns the tree
unchanged. -/
def patternScan (detectors : List (String × (String → Bool))) :
    Value → List PathStep → Except SanErr Value
  | .str s, path =>
    match detectors.find? (fun d => d.2 s) with
    | some hit => .error (.patternError hit.1 path)
    | none => .ok (.str s)
  | .dict es, path =>
    match patternScanEntries detectors es path with
    | .error e => .error e
    | .ok es' => .ok (.dict es')
  | .list xs, path =>
    match patternScanList detectors xs path 0 with
    | .error e => .error e
    | .ok xs' => .ok (.list xs')
  | v, _ => .ok v

def patternScanEntries (detectors : List (String × (String → Bool))) :
    List (String × Value) → List PathStep →
    Except SanErr (List (String × Value))
  | [], _ => .ok []
  | (k, v) :: rest, path =>
    match patternScan detectors v (path ++ [.field k]) with
    | .error e => .error e
    | .ok v' =>
      match patternScanEntries detectors rest path with
      | .error e => .error e
      | .ok rest' => .ok ((k, v') :: rest')

def patternScanList (detectors : List (String × (String → Bool))) :
    List Value → List PathStep → Nat → Except SanErr (List Value)
  | [], _, _ => .ok []
  | v :: rest, path, i =>
    match patternScan detectors v (path ++ [.index i]) with
    | .error e => .error e
    | .ok v' =>
      match patternScanList detectors rest path (i + 1) with
      | .error e => .error e
      | .ok rest' => .ok (v' :: rest')
end

/-- Modelled from the spec: `PatternValidator.validate` (section 4.4).  The
layer always raises on detection, in both strict and lenient orchestrator
modes, so the scan ignores the mode argument. -/
def patternValidate (detectors : List (String × (String → Bool)))
    (_mode : Mode) (v : Value) : Except SanErr Value :=
  patternScan detectors v []

mutual
/-- Does some document anywhere in the tree contain the key `t`? -/
def containsKey (t : String) : Value → Bool
  | .dict es => containsKeyEntries t es
  | .list xs => containsKeyList t xs
  | _ => false

def containsKeyEntries (t : String) : List (String × Value) → Bool
  | [] => false
  | (k, v) :: rest => k = t || containsKey t v || containsKeyEntries t rest

def containsKeyList (t : String) : List Value → Bool
  | [] => false
  | v :: rest => containsKey t v || containsKeyList t rest
end

mutual
/-- Does some string leaf of the tree match some detector of the catalog? -/
def hasHit (detectors : List (String × (String → Bool))) : Value → Bool
  | .str s => detectors.any (fun d => d.2 s)
  | .dict es => hasHitEntries detectors es
  | .list xs => hasHitList detectors xs
  | _ => false

def hasHitEntries (detectors : List (String × (String → Bool))) :
    List (String × Value) → Bool
  | [] => false
  | (_, v) :: rest => hasHit detectors v || hasHitEntries detectors rest

def hasHitList (detectors : List (String × (String → Bool))) :
    List Value → Bool
  | [] => false
  | v :: rest => hasHit detectors v || hasHitList detectors rest
end

/-- Resolve a structural path inside a value tree. -/
def lookupPath : Value → List PathStep → Option Value
  | v, [] => some v
  | .dict es, .field k :: rest =>
    match dictGet es k with
    | some v => lookupPath v rest
    | none => none
  | .list xs, .index i :: rest =>
    match xs.get? i with
    | some v => lookupPath v rest
    | none => none
  | _, _ => none

/-- No duplicates in a list of keys. -/
def nodupKeys : List String → Bool
  | [] => true
  | k :: rest => !containsStr rest k && nodupKeys rest

mutual
/-- The data-model invariant of section 3: every document's keys are unique
strings. -/
def wellFormed : Value → Bool
  | .dict es => nodupKeys (es.map Prod.fst) && wellFormedEntries es
  | .list xs => wellFormedList xs
  | _ => true

def wellFormedEntries : List (String × Value) → Bool
  | [] => true
  | (_, v) :: rest => wellFormed v && wellFormedEntries rest

def wellFormedList : List Value → Bool
  | [] => true
  | v :: rest => wellFormed v && wellFormedList rest
end

/-- Store `v` under key `f`: replace the first occurrence or append. -/
def setKey : List (String × Value) → String → Value → List (String × Value)
  | [], f, v => [(f, v)]
  | (k, w) :: rest, f, v =>
    if k = f then (k, v) :: rest else (k, w) :: setKey rest f v

/-- Remove every entry stored under key `f`. -/
def eraseKey (q : List (String × Value)) (f : String) : List (String × Value) :=
  q.filter (fun e => !(e.1 = f))

/-! ## Claim theorems -/

/-- Recognize a mention from an explicit split of the message. -/
theorem mentions_of_eq {p msg a b : String} (h : msg = a ++ p ++ b) : mentions p msg :=
  ⟨a, b, h⟩

/-- C10: FieldRule type checking uses runtime subtyping: for a FieldRule of
type INTEGER the booleans pass the type check as integers, and for a
FieldRule of type FLOAT any integer passes the type check as a float. -/
theorem checkType_runtime_subtyping (rule : FieldRule) :
    (rule.field_type = .integer → ∀ b : Bool, rule.checkType (.bool b) = true) ∧
    (rule.field_type = .float → ∀ n : Int, rule.checkType (.int n) = true) := by
  constructor
  · intro h b
    simp [FieldRule.checkType, h, typeMapping, pyIsinstance]
  · intro h n
    simp [FieldRule.checkType, h, typeMapping, pyIsinstance]

/-- Witness for C10 at concrete rules: booleans type-check as integers, and
an integer type-checks as a float. -/
theorem checkType_runtime_subtyping_witness :
    (mkFieldRule .integer).checkType (.bool true) = true ∧
    (mkFieldRule .integer).checkType (.bool false) = true ∧
    (mkFieldRule .float).checkType (.int 5) = true :=
  ⟨(checkType_runtime_subtyping (mkFieldRule .integer)).1 rfl true,
   (checkType_runtime_subtyping (mkFieldRule .integer)).1 rfl false,
   (checkType_runtime_subtyping (mkFieldRule .float)).2 rfl 5⟩

/-- C6 counterexample: `_is_valid_datetime` matches its compiled pattern with
`re.match`, whose `$` also matches just before a single trailing newline, so
the string "2024-01-15T10:30:00\n" passes the DATETIME type check even though
it is not a native datetime-like value and not a strict ISO-8601 string (the
spec-words predicate `specIso8601` rejects it): the only-if direction of the
original claim fails. -/
theorem datetime_claim_counterexample :
    (mkFieldRule .datetime).checkType (.str "2024-01-15T10:30:00\n") = true ∧
    specIso8601 "2024-01-15T10:30:00\n" = false ∧
    hasAttrYear (.str "2024-01-15T10:30:00\n") = false :=
  ⟨by decide, by decide, rfl⟩

/-- C6 amended: a DATETIME field rule's type check accepts exactly the native
datetime-like values and the strings matched by the compiled ISO-8601 regex
under Python `re.match` semantics — date, `T`, time, optional fractional
seconds, optional `Z` or numeric UTC offset, where `\d` matches any Unicode
decimal digit and the final `$` also matches before one trailing newline;
every other value fails the type check. -/
theorem datetime_checkType_iff (rule : FieldRule) (h : rule.field_type = .datetime)
    (v : Value) :
    rule.checkType v = true ↔
      ((∃ y, v = .datetime y) ∨ (∃ s, v = .str s ∧ isoMatch s = true)) := by
  simp only [FieldRule.checkType, h, typeMapping]
  cases v <;> simp [isValidDatetime, hasAttrYear]

/-- Witness for C6: a concrete ISO string with zone suffix passes the
DATETIME type check. -/
theorem datetime_checkType_iff_witness :
    (mkFieldRule .datetime).checkType (.str "2024-01-15T10:30:00Z") = true :=
  (datetime_checkType_iff (mkFieldRule .datetime) rfl _).mpr
    (Or.inr ⟨"2024-01-15T10:30:00Z", rfl, by decide⟩)

/-- `_check_type` on an OBJECT_ID rule is exactly the ObjectId helper. -/
theorem checkType_objectid (rule : FieldRule) (hft : rule.field_type = .objectid)
    (v : Value) : rule.checkType v = isValidObjectId v := by
  simp [FieldRule.checkType, hft, typeMapping]

/-- On an OBJECT_ID rule without an allowed-value constraint, `validate_value`
of a non-null value reduces to the ObjectId type check. -/
theorem validateValue_objectid (rule : FieldRule) (hft : rule.field_type = .objectid)
    (hav : rule.allowed_values = none) (v : Value) (hnn : v.isNull = false)
    (path : String) :
    validateValue rule v path =
      if isValidObjectId v then .ok ()
      else .error (.validationError ("Field \x27" ++ path ++ "\x27 has invalid type. " ++
        "Expected " ++ rule.field_type.value ++ ", got " ++ pyTypeName v)) := by
  cases v with
  | null => simp [Value.isNull] at hnn
  | str s =>
    simp only [validateValue, Value.isNull, checkType_objectid rule hft, hav,
      truthyList, hft]
    cases hv : isValidObjectId (.str s) <;>
      simp [hv, stringChecks, hft]
  | _ =>
    simp [validateValue, Value.isNull, checkType_objectid rule hft, hav,
      truthyList, hft, stringChecks, isValidObjectId]

/-- C5 counterexample: the claim as stated is false.  A null value is not a
24-hex-character string, yet an OBJECT_ID rule with the default
`required=False` accepts it without raising; and with a configured
allowed-value set a valid 24-hex ObjectId string raises even though the
claim says only values failing the type check raise. -/
theorem objectid_claim_counterexample :
    validateValue (FieldRule.mk .objectid false none none none none [] none none)
        .null "f" = .ok () ∧
    isValidObjectId .null = false ∧
    validateValue (FieldRule.mk .objectid false (some [.str "foo"]) none none none [] none none)
        (.str "507f1f77bcf86cd799439011") "f" =
      .error (.validationError ("Field \x27f\x27 has invalid value. " ++
        "Must be one of: " ++ pyRepr (.list [.str "foo"]))) ∧
    isValidObjectId (.str "507f1f77bcf86cd799439011") = true := by
  refine ⟨?_, by decide, ?_, by decide⟩
  · simp [validateValue, Value.isNull, FieldRule.required]
  · simp [validateValue, Value.isNull, FieldRule.required, FieldRule.checkType,
      FieldRule.field_type, typeMapping, FieldRule.allowed_values, truthyList,
      pyIn, pyEq, valToRat]
    decide

/-- C5 amended: for an OBJECT_ID rule with no allowed-value constraint and
any non-null value, validate_value accepts exactly the strings of 24
hexadecimal characters and raises a ValidationError naming the field path on
every other non-null value; a null value is instead governed by the
`required` flag. -/
theorem objectid_rule_amended (rule : FieldRule) (hft : rule.field_type = .objectid)
    (hav : rule.allowed_values = none) (v : Value) (hnn : v.isNull = false)
    (path : String) :
    (validateValue rule v path = .ok () ↔ isValidObjectId v = true) ∧
    (isValidObjectId v = false →
      ∃ m, validateValue rule v path = .error (.validationError m) ∧ mentions path m) := by
  rw [validateValue_objectid rule hft hav v hnn path]
  constructor
  · cases hv : isValidObjectId v <;> simp [hv]
  · intro hv
    simp only [hv, Bool.false_eq_true, if_false]
    exact ⟨_, rfl, mentions_of_eq (a := "Field \x27")
      (b := "\x27 has invalid type. " ++ "Expected " ++ rule.field_type.value ++
        ", got " ++ pyTypeName v) (by simp [String.append_assoc])⟩

/-- Witness for C5 amended: the canonical 24-hex string is accepted, and a
non-hex string is rejected with a ValidationError naming the path. -/
theorem objectid_rule_amended_witness :
    validateValue (mkFieldRule .objectid) (.str "507f1f77bcf86cd799439011") "f" = .ok () ∧
    ∃ m, validateValue (mkFieldRule .objectid) (.str "nope") "f" =
      .error (.validationError m) ∧ mentions "f" m :=
  ⟨(objectid_rule_amended (mkFieldRule .objectid) rfl rfl
      (.str "507f1f77bcf86cd799439011") (by decide) "f").1.mpr (by decide),
   (objectid_rule_amended (mkFieldRule .objectid) rfl rfl
      (.str "nope") (by decide) "f").2 (by decide)⟩

/-- On a STRING rule, `validate_value` of a string value reduces to the
allowed-value membership check followed by the string-specific checks. -/
theorem validateValue_string (rule : FieldRule) (hft : rule.field_type = .string)
    (s : String) (path : String) :
    validateValue rule (.str s) path =
      if truthyList rule.allowed_values = true ∧
          pyIn (.str s) (rule.allowed_values.getD []) = false then
        .error (.validationError ("Field \x27" ++ path ++ "\x27 has invalid value. " ++
          "Must be one of: " ++ pyRepr (.list (rule.allowed_values.getD []))))
      else stringChecks rule (.str s) path := by
  by_cases hal : (truthyList rule.allowed_values = true ∧
      pyIn (.str s) (rule.allowed_values.getD []) = false)
  · simp [validateValue, Value.isNull, FieldRule.checkType, hft, typeMapping,
      pyIsinstance, hal]
  · simp only [validateValue, Value.isNull, FieldRule.checkType, hft, typeMapping,
      pyIsinstance, hal, if_false, Bool.false_eq_true, false_and, if_neg,
      Bool.true_eq_false, and_false]
    cases hsc : stringChecks rule (.str s) path with
    | error e => simp [hsc, hal]
    | ok u => cases u; simp [hsc, hal, hft]

/-- C7 counterexample: the claim as stated is false.  With a configured
`max_length` of 0 (falsy in Python) a longer string is accepted without
error, and with a configured empty allowed-value set every string is
accepted although no string is a member of that set. -/
theorem string_claim_counterexample :
    validateValue (FieldRule.mk .string false none none (some 0) none [] none none)
        (.str "ab") "f" = .ok () ∧
    (("ab".length : Int) > (0 : Int)) ∧
    validateValue (FieldRule.mk .string false (some []) none none none [] none none)
        (.str "x") "f" = .ok () ∧
    pyIn (.str "x") [] = false := by
  refine ⟨?_, by decide, ?_, by decide⟩ <;>
    simp [validateValue, Value.isNull, FieldRule.required, FieldRule.checkType,
      FieldRule.field_type, typeMapping, pyIsinstance, FieldRule.allowed_values,
      truthyList, truthyInt, stringChecks, FieldRule.min_length, FieldRule.max_length,
      FieldRule.pattern, FieldRule.array_item_type, FieldRule.nested_schema]

/-- C7 amended: a STRING rule enforces exactly the constraints whose
configured values are truthy: a string shorter than a nonzero `min_length`,
longer than a nonzero `max_length`, not matching a configured pattern, or
outside a configured non-empty allowed-value set raises a ValidationError
naming the field path, while a zero length bound or an empty allowed-value
list disables that check; a string satisfying every enforced constraint is
accepted. -/
theorem string_rule_amended (rule : FieldRule) (hft : rule.field_type = .string)
    (s : String) (path : String) :
    (validateValue rule (.str s) path = .ok () ↔
      ((truthyList rule.allowed_values = true →
          pyIn (.str s) (rule.allowed_values.getD []) = true) ∧
       (truthyInt rule.min_length = true → rule.min_length.getD 0 ≤ (s.length : Int)) ∧
       (truthyInt rule.max_length = true → (s.length : Int) ≤ rule.max_length.getD 0) ∧
       (∀ pm, rule.pattern = some pm → pm s = true))) ∧
    (∀ e, validateValue rule (.str s) path = .error e →
      ∃ m, e = .validationError m ∧ mentions path m) := by
  rw [validateValue_string rule hft s path]
  simp only [stringChecks, hft, if_pos rfl]
  constructor
  · constructor
    · intro h
      split_ifs at h with h1 h2 h3 h4 <;> try cases h
      refine ⟨?_, ?_, ?_, ?_⟩
      · intro ht
        by_contra hpy
        exact h1 ⟨ht, by simpa using hpy⟩
      · intro ht
        by_contra hlt
        exact h2 ⟨ht, by omega⟩
      · intro ht
        by_contra hgt
        exact h3 ⟨ht, by omega⟩
      · intro pm hpm
        by_contra hps
        exact h4 ⟨by simp [hpm], by simp [hpm]; simpa using hps⟩
    · rintro ⟨h1, h2, h3, h4⟩
      split_ifs with hc1 hc2 hc3 hc4
      · exact absurd (h1 hc1.1) (by simp [hc1.2])
      · have := h2 hc2.1; omega
      · have := h3 hc3.1; omega
      · obtain ⟨pm, hpm⟩ := Option.isSome_iff_exists.mp hc4.1
        have := h4 pm hpm
        rw [hpm] at hc4
        simp [this] at hc4
      · rfl
  · intro e he
    split_ifs at he with h1 h2 h3 h4 <;> cases he
    · exact ⟨_, rfl, mentions_of_eq (a := "Field \x27")
        (b := "\x27 has invalid value. " ++ "Must be one of: " ++
          pyRepr (.list (rule.allowed_values.getD []))) (by simp [String.append_assoc])⟩
    · exact ⟨_, rfl, mentions_of_eq (a := "Field \x27")
        (b := "\x27 is too short. " ++ "Minimum length: " ++
          toString (rule.min_length.getD 0)) (by simp [String.append_assoc])⟩
    · exact ⟨_, rfl, mentions_of_eq (a := "Field \x27")
        (b := "\x27 is too long. " ++ "Maximum length: " ++
          toString (rule.max_length.getD 0)) (by simp [String.append_assoc])⟩
    · exact ⟨_, rfl, mentions_of_eq (a := "Field \x27")
        (b := "\x27 does not match required pattern") (by simp [String.append_assoc])⟩

/-- Witness for C7 amended: a string satisfying a non-empty allowed set,
positive length bounds and a configured pattern is accepted. -/
theorem string_rule_amended_witness :
    validateValue (FieldRule.mk .string false (some [.str "ab"]) (some 1) (some 10)
        (some (fun t => t == "ab")) [] none none) (.str "ab") "f" = .ok () :=
  (string_rule_amended (FieldRule.mk .string false (some [.str "ab"]) (some 1) (some 10)
      (some (fun t => t == "ab")) [] none none) rfl "ab" "f").1.mpr
    ⟨fun _ => by decide, fun _ => by decide, fun _ => by decide,
     fun pm h => by injection h with h2; rw [← h2]; decide⟩

/-- Unfolding of `validate_query` on a dictionary. -/
theorem validateQuery_dict (sv : SchemaValidator) (q : List (String × Value))
    (pfx : String) :
    validateQuery sv (.dict q) pfx =
      if ((dedupKeys (q.map Prod.fst)).filter
            (fun k => !(containsStr sv.allowedFields k))).isEmpty then
        validateFields sv.schema q pfx
      else
        .error (.schemaViolationError
          ("Unknown fields in query: " ++ reprStrList (sortStrings
            ((dedupKeys (q.map Prod.fst)).filter
              (fun k => !(containsStr sv.allowedFields k)))))
          pfx "allowed_fields") := by
  simp only [validateQuery]

theorem dictGet_setKey_self (q : List (String × Value)) (f : String) (v : Value) :
    dictGet (setKey q f v) f = some v := by
  induction q with
  | nil => simp [setKey, dictGet]
  | cons e rest ih =>
    obtain ⟨k, w⟩ := e
    by_cases hk : k = f <;> simp [setKey, dictGet, hk, ih]

theorem dictGet_setKey_ne (q : List (String × Value)) (f g : String) (v : Value)
    (h : g ≠ f) : dictGet (setKey q f v) g = dictGet q g := by
  induction q with
  | nil => simp [setKey, dictGet, Ne.symm h]
  | cons e rest ih =>
    obtain ⟨k, w⟩ := e
    by_cases hk : k = f
    · subst hk
      simp [setKey, dictGet, Ne.symm h]
    · simp [setKey, dictGet, hk, ih]

theorem dictGet_eraseKey_self (q : List (String × Value)) (f : String) :
    dictGet (eraseKey q f) f = none := by
  induction q with
  | nil => simp [eraseKey, dictGet]
  | cons e rest ih =>
    obtain ⟨k, w⟩ := e
    by_cases hk : k = f <;> simp [eraseKey, List.filter, dictGet, hk] at ih ⊢ <;>
      simpa [eraseKey] using ih

theorem dictGet_eraseKey_ne (q : List (String × Value)) (f g : String) (h : g ≠ f) :
    dictGet (eraseKey q f) g = dictGet q g := by
  induction q with
  | nil => simp [eraseKey, dictGet]
  | cons e rest ih =>
    obtain ⟨k, w⟩ := e
    by_cases hk : k = f
    · subst hk
      simp [eraseKey, List.filter, dictGet, Ne.symm h, h] at ih ⊢
      simpa [eraseKey] using ih
    · by_cases hg : k = g <;>
        simp [eraseKey, List.filter, dictGet, hk, hg, h] at ih ⊢ <;>
        simpa [eraseKey] using ih

theorem keys_setKey (q : List (String × Value)) (f : String) (v : Value) :
    (setKey q f v).map Prod.fst =
      if containsStr (q.map Prod.fst) f then q.map Prod.fst
      else q.map Prod.fst ++ [f] := by
  induction q with
  | nil => simp [setKey, containsStr]
  | cons e rest ih =>
    obtain ⟨k, w⟩ := e
    by_cases hk : k = f
    · subst hk
      simp [setKey, containsStr]
    · simp [setKey, containsStr, hk, ih]
      by_cases hc : containsStr (rest.map Prod.fst) f <;> simp [hc]

theorem keys_eraseKey (q : List (String × Value)) (f : String) :
    (eraseKey q f).map Prod.fst = (q.map Prod.fst).filter (fun x => !(x = f)) := by
  induction q with
  | nil => simp [eraseKey]
  | cons e rest ih =>
    obtain ⟨k, w⟩ := e
    by_cases hk : k = f <;> simp [eraseKey, List.filter, hk] at ih ⊢ <;>
      simpa [eraseKey] using ih

theorem containsStr_filter_ne (l : List String) (g f : String) (h : g ≠ f) :
    containsStr (l.filter (fun x => !(x = f))) g = containsStr l g := by
  induction l with
  | nil => simp
  | cons k rest ih =>
    by_cases hk : k = f
    · subst hk
      simp [List.filter, containsStr, Ne.symm h, h, ih]
    · by_cases hg : k = g <;> simp [List.filter, containsStr, hk, hg, h, ih]

theorem dedup_containsStr (l : List String) (k : String) :
    containsStr (dedupKeys l) k = containsStr l k := by
  induction l with
  | nil => simp [dedupKeys]
  | cons x rest ih =>
    by_cases hc : containsStr rest x
    · by_cases hxk : x = k
      · subst hxk
        simp [dedupKeys, hc, containsStr, ih, hc]
      · simp [dedupKeys, hc, containsStr, hxk, ih]
    · simp [dedupKeys, hc, containsStr, ih]

theorem dedup_filter_dropKey (p : String → Bool) (f : String) (hpf : p f = false) :
    ∀ l : List String,
      (dedupKeys l).filter p = (dedupKeys (l.filter (fun x => !(x = f)))).filter p := by
  intro l
  induction l with
  | nil => rfl
  | cons k rest ih =>
    by_cases hk : k = f
    · subst hk
      by_cases hc : containsStr rest k <;>
        simp [dedupKeys, hc, List.filter, hpf, ih, containsStr_filter_ne]
    · have hcf := containsStr_filter_ne rest k f hk
      by_cases hc : containsStr rest k <;>
        simp [dedupKeys, List.filter, hk, hc, hcf, ih] <;>
        by_cases hp : p k <;> simp [hp, ih]

theorem containsStr_append_single (l : List String) (f x : String) :
    containsStr (l ++ [f]) x = (containsStr l x || decide (f = x)) := by
  induction l with
  | nil => simp [containsStr]
  | cons y tl ih => by_cases hy : y = x <;> simp [containsStr, hy, ih]

theorem dedup_filter_appendKey (p : String → Bool) (f : String) (hpf : p f = false) :
    ∀ l : List String,
      (dedupKeys (l ++ [f])).filter p = (dedupKeys l).filter p := by
  intro l
  induction l with
  | nil => simp [dedupKeys, containsStr, List.filter, hpf]
  | cons k rest ih =>
    rw [List.cons_append]
    have hone := containsStr_append_single rest f k
    by_cases hk : k = f
    · subst hk
      have hcc : containsStr (rest ++ [k]) k = true := by rw [hone]; simp
      simp only [dedupKeys, hcc, if_true]
      rw [ih]
      by_cases hc : containsStr rest k
      · simp [dedupKeys, hc]
      · simp [dedupKeys, hc, List.filter, hpf]
    · have hcc : containsStr (rest ++ [f]) k = containsStr rest k := by
        rw [hone]; simp [Ne.symm hk]
      by_cases hc : containsStr rest k
      · simp [dedupKeys, hcc, hc, ih]
      · simp only [dedupKeys, hcc, hc, Bool.false_eq_true, if_false]
        cases hp : p k <;> simp [List.filter, hp, ih]

/-- `validate_query`'s field loop reads the query only through `query.get`. -/
theorem validateFields_congr (fields : List (String × FieldRule))
    (q1 q2 : List (String × Value)) (pfx : String)
    (h : ∀ g, pyGet q1 g = pyGet q2 g) :
    validateFields fields q1 pfx = validateFields fields q2 pfx := by
  induction fields with
  | nil => simp [validateFields]
  | cons e rest ih =>
    obtain ⟨fname, frule⟩ := e
    simp only [validateFields]
    rw [h fname]
    cases validateValue frule (pyGet q2 fname) (joinPath pfx fname) with
    | error e2 => rfl
    | ok u => cases u; exact ih

/-- C9: at the `validate_query` interface a field present with value null is
indistinguishable from an absent field.  `validate_value` on a null value is
decided by the `required` flag alone, skipping every type, length, pattern
and allowed-value check (raising the missing-field ValidationError when
required); and `validate_query` treats a query storing null under a schema
field exactly like the same query with that key removed. -/
theorem null_indistinguishable_from_absent :
    (∀ (rule : FieldRule) (path : String),
      validateValue rule .null path =
        if rule.required then
          .error (.validationError ("Required field \x27" ++ path ++ "\x27 is missing"))
        else .ok ()) ∧
    (∀ (schema : List (String × FieldRule)) (q : List (String × Value))
        (f : String) (pfx : String), containsStr (schema.map Prod.fst) f = true →
      validateQuery (mkSchemaValidator schema) (.dict (setKey q f .null)) pfx =
        validateQuery (mkSchemaValidator schema) (.dict (eraseKey q f)) pfx) := by
  constructor
  · intro rule path
    cases hr : rule.required <;> simp [validateValue, Value.isNull, hr]
  · intro schema q f pfx hf
    rw [validateQuery_dict, validateQuery_dict]
    have hpf : (fun k => !(containsStr (mkSchemaValidator schema).allowedFields k)) f
        = false := by
      simp [mkSchemaValidator, dedup_containsStr, hf]
    have hkeys : ((dedupKeys ((setKey q f Value.null).map Prod.fst)).filter
        (fun k => !(containsStr (mkSchemaValidator schema).allowedFields k))) =
        ((dedupKeys ((eraseKey q f).map Prod.fst)).filter
          (fun k => !(containsStr (mkSchemaValidator schema).allowedFields k))) := by
      rw [keys_setKey, keys_eraseKey]
      by_cases hc : containsStr (q.map Prod.fst) f
      · rw [if_pos hc]
        exact dedup_filter_dropKey _ f hpf _
      · rw [if_neg hc, dedup_filter_appendKey _ f hpf]
        exact dedup_filter_dropKey _ f hpf _
    rw [hkeys]
    by_cases he : ((dedupKeys ((eraseKey q f).map Prod.fst)).filter
        (fun k => !(containsStr (mkSchemaValidator schema).allowedFields k))).isEmpty
    · rw [if_pos he, if_pos he]
      apply validateFields_congr
      intro g
      by_cases hg : g = f
      · subst hg
        simp [pyGet, dictGet_setKey_self, dictGet_eraseKey_self]
      · simp [pyGet, dictGet_setKey_ne q f g Value.null hg, dictGet_eraseKey_ne q f g hg]
    · rw [if_neg he, if_neg he]

/-- Witness for C9: a concrete query with `name` set to null validates
exactly like the query without `name`. -/
theorem null_indistinguishable_from_absent_witness :
    validateQuery (mkSchemaValidator [("name", mkFieldRule .string)])
        (.dict (setKey [("name", .str "John")] "name" .null)) "" =
      validateQuery (mkSchemaValidator [("name", mkFieldRule .string)])
        (.dict (eraseKey [("name", .str "John")] "name")) "" :=
  null_indistinguishable_from_absent.2 [("name", mkFieldRule .string)]
    [("name", .str "John")] "name" "" (by decide)

theorem ne_empty_of_length_pos (s : String) (h : 0 < s.length) : s ≠ "" := by
  intro he
  rw [he] at h
  simp at h

theorem joinPath_ne_empty (pfx f : String) (h : f ≠ "" ∨ pfx ≠ "") :
    joinPath pfx f ≠ "" := by
  unfold joinPath
  split
  · rcases h with hf | hp
    · exact hf
    · exact absurd (by assumption) hp
  · apply ne_empty_of_length_pos
    have h1 : ("." : String).length = 1 := by decide
    simp [String.length_append, h1]

theorem itemPath_ne_empty (path : String) (i : Nat) :
    path ++ "[" ++ toString i ++ "]" ≠ "" := by
  apply ne_empty_of_length_pos
  have h1 : ("]" : String).length = 1 := by decide
  simp [String.length_append, h1]

theorem containsStr_iff_mem (l : List String) (k : String) :
    containsStr l k = true ↔ k ∈ l := by
  induction l with
  | nil => simp [containsStr]
  | cons x rest ih =>
    by_cases hx : x = k
    · subst hx
      simp [containsStr]
    · simp [containsStr, hx, ih]
      intro hkx
      exact absurd hkx.symm hx

theorem mem_dedupKeys (l : List String) (k : String) : k ∈ dedupKeys l ↔ k ∈ l := by
  rw [← containsStr_iff_mem, ← containsStr_iff_mem, dedup_containsStr]

/-- The unknown-field filter of `validate_query` is empty exactly when every
query key belongs to the schema. -/
theorem unknownFilter_isEmpty_iff (schema : List (String × FieldRule))
    (q : List (String × Value)) :
    ((dedupKeys (q.map Prod.fst)).filter
        (fun k => !(containsStr (mkSchemaValidator schema).allowedFields k))).isEmpty
      = true ↔
    (q.map Prod.fst).all (fun k => containsStr (schema.map Prod.fst) k) = true := by
  rw [List.isEmpty_iff, List.filter_eq_nil_iff, List.all_eq_true]
  constructor
  · intro h k hk
    have := h k ((mem_dedupKeys _ _).mpr hk)
    simp only [mkSchemaValidator, dedup_containsStr] at this
    simpa using this
  · intro h k hk
    have := h k ((mem_dedupKeys _ _).mp hk)
    simp only [mkSchemaValidator, dedup_containsStr]
    simpa using this

/-- The invalid-type message of `validate_value`. -/
def typeErrMsg (rule : FieldRule) (value : Value) (fieldPath : String) : String :=
  "Field \x27" ++ fieldPath ++ "\x27 has invalid type. " ++
    "Expected " ++ rule.field_type.value ++ ", got " ++ pyTypeName value

/-- The invalid-value message of `validate_value`. -/
def allowedErrMsg (rule : FieldRule) (fieldPath : String) : String :=
  "Field \x27" ++ fieldPath ++ "\x27 has invalid value. " ++
    "Must be one of: " ++ pyRepr (.list (rule.allowed_values.getD []))

theorem except_match_id (x : Except SanErr Unit) :
    (match x with
     | .error e => (.error e : Except SanErr Unit)
     | .ok () => .ok ()) = x := by
  cases x with
  | error e => rfl
  | ok u => cases u; rfl

/-- `validate_value` on a dictionary: the null gate and string block are
inert; the array block is inert because a dictionary is not a list. -/
theorem validateValue_dict (rule : FieldRule) (es : List (String × Value))
    (path : String) :
    validateValue rule (.dict es) path =
      if rule.checkType (.dict es) = false then
        .error (.validationError (typeErrMsg rule (.dict es) path))
      else if truthyList rule.allowed_values = true ∧
          pyIn (.dict es) (rule.allowed_values.getD []) = false then
        .error (.validationError (allowedErrMsg rule path))
      else if rule.field_type = .object then
        (if rule.nested_schema.isEmpty then .ok ()
         else validateQuery (mkSchemaValidator rule.nested_schema) (.dict es) path)
      else .ok () := by
  have hsc : stringChecks rule (.dict es) path = .ok () := by
    simp [stringChecks, ite_self]
  simp only [validateValue, Value.isNull, Bool.false_eq_true, false_and, if_false,
    hsc, ite_self, typeErrMsg, allowedErrMsg]

/-- `validate_value` on a list: the string and object blocks are inert; the
array block runs the per-item loop when an item type is configured. -/
theorem validateValue_list (rule : FieldRule) (xs : List Value) (path : String) :
    validateValue rule (.list xs) path =
      if rule.checkType (.list xs) = false then
        .error (.validationError (typeErrMsg rule (.list xs) path))
      else if truthyList rule.allowed_values = true ∧
          pyIn (.list xs) (rule.allowed_values.getD []) = false then
        .error (.validationError (allowedErrMsg rule path))
      else if rule.field_type = .array then
        (match rule.array_item_type with
         | some itemType => validateItems itemType xs path 0
         | none => .ok ())
      else .ok () := by
  have hsc : stringChecks rule (.list xs) path = .ok () := by
    simp [stringChecks, ite_self]
  simp only [validateValue, Value.isNull, Bool.false_eq_true, false_and, if_false,
    hsc, ite_self, typeErrMsg, allowedErrMsg]
  by_cases ha : rule.field_type = .array
  · simp only [ha, if_pos rfl]
    cases rule.array_item_type with
    | some itemType => rw [except_match_id]
    | none => simp [ite_self]
  · simp [ha, ite_self]

/-- `validate_value` on a string: the array and object blocks are inert. -/
theorem validateValue_str (rule : FieldRule) (s : String) (path : String) :
    validateValue rule (.str s) path =
      if rule.checkType (.str s) = false then
        .error (.validationError (typeErrMsg rule (.str s) path))
      else if truthyList rule.allowed_values = true ∧
          pyIn (.str s) (rule.allowed_values.getD []) = false then
        .error (.validationError (allowedErrMsg rule path))
      else stringChecks rule (.str s) path := by
  simp only [validateValue, Value.isNull, Bool.false_eq_true, false_and, if_false,
    ite_self, typeErrMsg, allowedErrMsg]
  rw [except_match_id]

/-- `validate_value` on a scalar other than null and strings: only the type
and allowed-value checks can fire. -/
theorem validateValue_scalar (rule : FieldRule) (path : String) (v : Value)
    (hnn : v.isNull = false) (hstr : ∀ s, v ≠ .str s) (hlist : ∀ xs, v ≠ .list xs)
    (hdict : ∀ es, v ≠ .dict es) :
    validateValue rule v path =
      if rule.checkType v = false then
        .error (.validationError (typeErrMsg rule v path))
      else if truthyList rule.allowed_values = true ∧
          pyIn v (rule.allowed_values.getD []) = false then
        .error (.validationError (allowedErrMsg rule path))
      else .ok () := by
  cases v with
  | null => simp [Value.isNull] at hnn
  | str s => exact absurd rfl (hstr s)
  | list xs => exact absurd rfl (hlist xs)
  | dict es => exact absurd rfl (hdict es)
  | _ =>
    simp [validateValue, Value.isNull, stringChecks, ite_self, typeErrMsg, allowedErrMsg]

/-- Every error raised by the string-specific checks is a ValidationError. -/
theorem stringChecks_error_shape (rule : FieldRule) (v : Value) (path : String)
    (e : SanErr) (h : stringChecks rule v path = .error e) :
    ∃ m, e = .validationError m := by
  unfold stringChecks at h
  split at h
  · split at h
    · split_ifs at h <;> cases h <;> exact ⟨_, rfl⟩
    · cases h
  · cases h

/-- `validate_value` on null is decided by the `required` flag alone. -/
theorem validateValue_null (rule : FieldRule) (path : String) :
    validateValue rule .null path =
      if rule.required then
        .error (.validationError ("Required field \x27" ++ path ++ "\x27 is missing"))
      else .ok () := by
  cases hr : rule.required <;> simp [validateValue, Value.isNull, hr]

theorem svPath_null_impossible (rule : FieldRule) (path m p r : String)
    (h : validateValue rule .null path = .error (.schemaViolationError m p r)) :
    False := by
  rw [validateValue_null] at h
  split_ifs at h <;> cases h

theorem svPath_str_impossible (rule : FieldRule) (s path m p r : String)
    (h : validateValue rule (.str s) path = .error (.schemaViolationError m p r)) :
    False := by
  rw [validateValue_str] at h
  split_ifs at h <;> try cases h
  obtain ⟨m2, hm⟩ := stringChecks_error_shape rule (.str s) path _ h
  cases hm

theorem svPath_scalar_impossible (rule : FieldRule) (v : Value) (path : String)
    (hnn : v.isNull = false) (hstr : ∀ s, v ≠ .str s) (hlist : ∀ xs, v ≠ .list xs)
    (hdict : ∀ es, v ≠ .dict es) (m p r : String)
    (h : validateValue rule v path = .error (.schemaViolationError m p r)) :
    False := by
  rw [validateValue_scalar rule path v hnn hstr hlist hdict] at h
  split_ifs at h <;> cases h

mutual
/-- A SchemaViolationError escaping `validate_value` at a non-empty field
path itself carries a non-empty field path. -/
theorem svPath_validateValue : ∀ (rule : FieldRule) (v : Value) (path : String),
    path ≠ "" → ∀ m p r : String,
    validateValue rule v path = .error (.schemaViolationError m p r) → p ≠ ""
  | rule, .dict es, path, hp, m, p, r, h => by
    rw [validateValue_dict] at h
    split_ifs at h with hc1 hc2 hc3 hc4 <;> try cases h
    exact svPath_validateQuery (mkSchemaValidator rule.nested_schema)
      (.dict es) path hp m p r h
  | rule, .list xs, path, hp, m, p, r, h => by
    rw [validateValue_list] at h
    split_ifs at h with hc1 hc2 hc3 <;> try cases h
    cases hit : rule.array_item_type with
    | some itemType =>
      simp only [hit] at h
      exact svPath_validateItems itemType xs path 0 m p r h
    | none =>
      simp only [hit] at h
      cases h
  | rule, .null, path, hp, m, p, r, h => (svPath_null_impossible rule path m p r h).elim
  | rule, .str s, path, hp, m, p, r, h => (svPath_str_impossible rule s path m p r h).elim
  | rule, .bool b, path, hp, m, p, r, h =>
    (svPath_scalar_impossible rule (.bool b) path rfl (fun _ => by simp)
      (fun _ => by simp) (fun _ => by simp) m p r h).elim
  | rule, .int n, path, hp, m, p, r, h =>
    (svPath_scalar_impossible rule (.int n) path rfl (fun _ => by simp)
      (fun _ => by simp) (fun _ => by simp) m p r h).elim
  | rule, .float x, path, hp, m, p, r, h =>
    (svPath_scalar_impossible rule (.float x) path rfl (fun _ => by simp)
      (fun _ => by simp) (fun _ => by simp) m p r h).elim
  | rule, .datetime y, path, hp, m, p, r, h =>
    (svPath_scalar_impossible rule (.datetime y) path rfl (fun _ => by simp)
      (fun _ => by simp) (fun _ => by simp) m p r h).elim
termination_by rule v path => (sizeOf v, 3, 0)
decreasing_by
  all_goals first
    | (apply Prod.Lex.left; exact pyGet_sizeOf _ _)
    | (simp [Prod.lex_def]; try omega)

/-- A SchemaViolationError escaping the array-item loop carries a non-empty
field path (the item path always ends with a bracketed index). -/
theorem svPath_validateItems : ∀ (itemType : FieldType) (xs : List Value)
    (path : String) (i : Nat) (m p r : String),
    validateItems itemType xs path i = .error (.schemaViolationError m p r) → p ≠ ""
  | itemType, [], path, i, m, p, r, h => by simp [validateItems] at h
  | itemType, item :: rest, path, i, m, p, r, h => by
    cases hv : validateValue (mkFieldRule itemType) item
        (path ++ "[" ++ toString i ++ "]") with
    | error e =>
      simp only [validateItems, hv] at h
      have he : e = .schemaViolationError m p r := by cases h; rfl
      subst he
      exact svPath_validateValue (mkFieldRule itemType) item _
        (itemPath_ne_empty path i) m p r hv
    | ok u =>
      cases u
      simp only [validateItems, hv] at h
      exact svPath_validateItems itemType rest path (i + 1) m p r h
termination_by itemType xs => (sizeOf xs, 1, 0)
decreasing_by
  all_goals first
    | (apply Prod.Lex.left; exact pyGet_sizeOf _ _)
    | (simp [Prod.lex_def]; try omega)

/-- A SchemaViolationError escaping `validate_query` at a non-empty prefix
carries a non-empty field path. -/
theorem svPath_validateQuery : ∀ (sv : SchemaValidator) (v : Value) (pfx : String),
    pfx ≠ "" → ∀ m p r : String,
    validateQuery sv v pfx = .error (.schemaViolationError m p r) → p ≠ ""
  | sv, .dict q, pfx, hp, m, p, r, h => by
    rw [validateQuery_dict] at h
    split_ifs at h with he
    · exact svPath_validateFields sv.schema q pfx
        (fun fr _ => joinPath_ne_empty pfx fr.1 (Or.inr hp)) m p r h
    · have hpp : p = pfx := by cases h; rfl
      rw [hpp]
      exact hp
  | sv, .null, pfx, hp, m, p, r, h => by simp [validateQuery] at h
  | sv, .bool b, pfx, hp, m, p, r, h => by simp [validateQuery] at h
  | sv, .int n, pfx, hp, m, p, r, h => by simp [validateQuery] at h
  | sv, .float x, pfx, hp, m, p, r, h => by simp [validateQuery] at h
  | sv, .str s, pfx, hp, m, p, r, h => by simp [validateQuery] at h
  | sv, .list xs, pfx, hp, m, p, r, h => by simp [validateQuery] at h
  | sv, .datetime y, pfx, hp, m, p, r, h => by simp [validateQuery] at h
termination_by sv v => (sizeOf v, 2, 0)
decreasing_by
  all_goals first
    | (apply Prod.Lex.left; exact pyGet_sizeOf _ _)
    | (simp [Prod.lex_def]; try omega)

/-- A SchemaViolationError escaping the field loop carries a non-empty field
path when every field path built by the loop is non-empty. -/
theorem svPath_validateFields : ∀ (fields : List (String × FieldRule))
    (q : List (String × Value)) (pfx : String),
    (∀ fr ∈ fields, joinPath pfx fr.1 ≠ "") → ∀ m p r : String,
    validateFields fields q pfx = .error (.schemaViolationError m p r) → p ≠ ""
  | [], q, pfx, hall, m, p, r, h => by simp [validateFields] at h
  | (fname, frule) :: rest, q, pfx, hall, m, p, r, h => by
    cases hv : validateValue frule (pyGet q fname) (joinPath pfx fname) with
    | error e2 =>
      simp only [validateFields, hv] at h
      by_cases hval : isValidationError e2
      · rw [if_pos hval] at h
        have he : e2 = .schemaViolationError m p r := by cases h; rfl
        subst he
        exact svPath_validateValue frule (pyGet q fname) (joinPath pfx fname)
          (hall (fname, frule) (by simp)) m p r hv
      · rw [if_neg hval] at h
        cases h
    | ok u =>
      cases u
      simp only [validateFields, hv] at h
      exact svPath_validateFields rest q pfx
        (fun fr hfr => hall fr (List.mem_cons_of_mem _ hfr)) m p r h
termination_by fields q => (sizeOf q + 1, 1, sizeOf fields)
decreasing_by
  all_goals first
    | (apply Prod.Lex.left; exact pyGet_sizeOf _ _)
    | (simp [Prod.lex_def]; try omega)
end

/-- C3 counterexample: the claim as stated is false.  A query whose top-level
keys all belong to the schema can still make `validate_query` raise a
SchemaViolationError with rule `allowed_fields`: an unknown field inside a
nested Object-typed sub-document surfaces through the recursive call,
carrying the parent field path. -/
theorem toplevel_allowed_fields_counterexample :
    validateQuery (mkSchemaValidator [("address",
        FieldRule.mk .object false none none none none
          [("city", mkFieldRule .string)] none none)])
      (.dict [("address", .dict [("bad", .int 1)])]) "" =
      .error (.schemaViolationError "Unknown fields in query: [\x27bad\x27]"
        "address" "allowed_fields") ∧
    ([("address", Value.dict [("bad", Value.int 1)])].map Prod.fst).all
      (fun k => containsStr
        ([("address", FieldRule.mk .object false none none none none
            [("city", mkFieldRule .string)] none none)].map Prod.fst) k) = true := by
  constructor
  · simp [validateQuery, mkSchemaValidator, reprStrList, sortStrings, insertSorted,
      validateFields, validateValue, joinPath, pyGet, dictGet, Value.isNull,
      FieldRule.required, FieldRule.checkType, FieldRule.field_type, typeMapping,
      pyIsinstance, FieldRule.allowed_values, truthyList, stringChecks,
      FieldRule.array_item_type, FieldRule.nested_schema, isValidationError,
      dedupKeys, containsStr]
    decide
  · decide

/-- C3 amended: `validate_query` raises the top-level allowed-fields
violation — a SchemaViolationError carrying the empty top-level field path
and rule `allowed_fields` — exactly when the top-level key set is not a
subset of the schema's field names; a query whose keys all belong to the
schema cannot trigger that top-level violation, though a nested sub-document
may still raise a SchemaViolationError carrying its non-empty parent field
path (schema field names assumed non-empty). -/
theorem toplevel_allowed_fields_iff (schema : List (String × FieldRule))
    (hnz : ∀ fr ∈ schema, fr.1 ≠ "") (q : List (String × Value)) :
    (∃ m, validateQuery (mkSchemaValidator schema) (.dict q) "" =
        .error (.schemaViolationError m "" "allowed_fields")) ↔
      ¬((q.map Prod.fst).all (fun k => containsStr (schema.map Prod.fst) k) = true) := by
  rw [validateQuery_dict]
  by_cases he : ((dedupKeys (q.map Prod.fst)).filter
      (fun k => !(containsStr (mkSchemaValidator schema).allowedFields k))).isEmpty
  · rw [if_pos he]
    have hall := (unknownFilter_isEmpty_iff schema q).mp he
    constructor
    · rintro ⟨m, hm⟩
      have hne := svPath_validateFields (mkSchemaValidator schema).schema q ""
        (fun fr hfr => by simpa [joinPath] using hnz fr hfr) m "" "allowed_fields" hm
      exact absurd rfl hne
    · intro hcon
      exact absurd hall hcon
  · rw [if_neg he]
    constructor
    · intro _ hall
      exact he ((unknownFilter_isEmpty_iff schema q).mpr hall)
    · intro _
      exact ⟨_, rfl⟩

/-- Witness for C3 amended: a top-level unknown field produces the top-level
SchemaViolationError with the empty field path. -/
theorem toplevel_allowed_fields_iff_witness :
    ∃ m, validateQuery (mkSchemaValidator [("name", mkFieldRule .string)])
      (.dict [("bad", .int 1)]) "" =
      .error (.schemaViolationError m "" "allowed_fields") :=
  (toplevel_allowed_fields_iff [("name", mkFieldRule .string)]
    (by rintro fr hfr; simp at hfr; subst hfr; decide)
    [("bad", .int 1)]).mpr (by decide)

/-- C4 counterexample: an Object-typed rule with a non-empty nested schema
but also a configured allowed-value set.  On a sub-document with an unknown
nested field the allowed-value membership check of `validate_value` fires
before the nested block: the call raises the plain allowed-value
ValidationError, not the SchemaViolationError with the composed field path
that the recursive application of the nested schema (second conjunct) would
have produced, refuting the original claim's universal scope. -/
theorem object_nested_claim_counterexample :
    validateValue (FieldRule.mk .object false (some [.str "x"]) none none none
        [("city", mkFieldRule .string)] none none)
      (.dict [("bad", .int 1)]) "user.address" =
      .error (.validationError (allowedErrMsg
        (FieldRule.mk .object false (some [.str "x"]) none none none
          [("city", mkFieldRule .string)] none none) "user.address")) ∧
    ∃ m, validateQuery (mkSchemaValidator [("city", mkFieldRule .string)])
      (.dict [("bad", .int 1)]) "user.address" =
      .error (.schemaViolationError m "user.address" "allowed_fields") := by
  constructor
  · rw [validateValue_dict, if_neg ?hc1, if_pos ?hc2]
    case hc1 => decide
    case hc2 => decide
  · rw [validateQuery_dict, if_neg ?hc3]
    case hc3 => decide
    exact ⟨_, rfl⟩

/-- C4 amended: for an Object-typed field rule with a non-empty nested schema
and no configured (truthy) allowed-value set, and a document value,
`validate_value` is exactly the recursive application of
`SchemaValidator.validate_query` to the sub-document with the extended
parent path, and an unknown nested field is reported as a
SchemaViolationError carrying the composed field path and the schema rule
`allowed_fields`.  The allowed-value caveat is forced by the counterexample:
a configured allowed-value set is checked before the nested block. -/
theorem object_nested_schema_recursion (rule : FieldRule)
    (hft : rule.field_type = .object) (hns : rule.nested_schema.isEmpty = false)
    (hav : truthyList rule.allowed_values = false)
    (d : List (String × Value)) (path : String) :
    validateValue rule (.dict d) path =
      validateQuery (mkSchemaValidator rule.nested_schema) (.dict d) path ∧
    (¬((d.map Prod.fst).all
        (fun k => containsStr (rule.nested_schema.map Prod.fst) k) = true) →
      ∃ m, validateValue rule (.dict d) path =
        .error (.schemaViolationError m path "allowed_fields")) := by
  have heq : validateValue rule (.dict d) path =
      validateQuery (mkSchemaValidator rule.nested_schema) (.dict d) path := by
    rw [validateValue_dict]
    rw [if_neg ?hc1, if_neg ?hc2, if_pos hft, if_neg ?hc4]
    case hc1 => simp [FieldRule.checkType, hft, typeMapping, pyIsinstance]
    case hc2 => simp [hav]
    case hc4 => simp [hns]
  refine ⟨heq, ?_⟩
  intro hsub
  rw [heq, validateQuery_dict, if_neg ?hemp]
  case hemp =>
    intro hemp2
    exact hsub ((unknownFilter_isEmpty_iff rule.nested_schema d).mp hemp2)
  exact ⟨_, rfl⟩

/-- Witness for C4: a nested sub-document with an unknown field reports the
violation at the composed parent path `user.address`. -/
theorem object_nested_schema_recursion_witness :
    (validateValue (FieldRule.mk .object false none none none none
        [("city", mkFieldRule .string)] none none)
      (.dict [("bad", .int 1)]) "user.address" =
      validateQuery (mkSchemaValidator [("city", mkFieldRule .string)])
        (.dict [("bad", .int 1)]) "user.address") ∧
    (∃ m, validateValue (FieldRule.mk .object false none none none none
        [("city", mkFieldRule .string)] none none)
      (.dict [("bad", .int 1)]) "user.address" =
      .error (.schemaViolationError m "user.address" "allowed_fields")) :=
  ⟨(object_nested_schema_recursion (FieldRule.mk .object false none none none none
      [("city", mkFieldRule .string)] none none) rfl rfl rfl
      [("bad", .int 1)] "user.address").1,
   (object_nested_schema_recursion (FieldRule.mk .object false none none none none
      [("city", mkFieldRule .string)] none none) rfl rfl rfl
      [("bad", .int 1)] "user.address").2 (by decide)⟩

theorem setKeyIfPresent_self : ∀ (q : List (String × Value)) (f : String),
    setKeyIfPresent q f (pyGet q f) = q
  | [], f => rfl
  | (k, w) :: rest, f => by
    by_cases hk : k = f
    · subst hk
      simp [setKeyIfPresent, pyGet, dictGet]
    · simp only [setKeyIfPresent, if_neg hk]
      have : pyGet ((k, w) :: rest) f = pyGet rest f := by
        simp [pyGet, dictGet, hk]
      rw [this, setKeyIfPresent_self rest f]

theorem setNested_self (rule : FieldRule) :
    rule.setNested rule.nested_schema = rule := by
  cases rule
  rfl

mutual
theorem frame_validateValueT : ∀ (rule : FieldRule) (v : Value) (path : String),
    (validateValueT rule v path).2 = (rule, v)
  | rule, v, path => by
    have ha := frame_validateArrayT rule v path
    have ho := frame_validateObjectT rule v path
    simp only [validateValueT]
    split_ifs <;> try rfl
    all_goals
      cases hsc : stringChecks rule v path with
      | error e => simp
      | ok u =>
        cases u
        cases harr : validateArrayT rule v path with
        | mk res1 v1 =>
          rw [harr] at ha
          simp only at ha
          cases res1 with
          | error e => simp [ha]
          | ok u2 =>
            cases u2
            simp [ho, ha]
termination_by rule v path => (sizeOf v, 3, 0)
decreasing_by
  all_goals first
    | (apply Prod.Lex.left; exact pyGet_sizeOf _ _)
    | (simp [Prod.lex_def]; try omega)

theorem frame_validateArrayT : ∀ (rule : FieldRule) (v : Value) (path : String),
    (validateArrayT rule v path).2 = v
  | rule, .list xs, path => by
    have hi := frame_validateItemsT (rule.array_item_type.getD .any) xs path 0
    simp only [validateArrayT]
    split_ifs <;> try rfl
    cases hit : rule.array_item_type with
    | none => rfl
    | some ty =>
      rw [hit] at hi
      simp only [Option.getD] at hi
      simp [hi]
  | rule, .null, path => by simp only [validateArrayT]; split_ifs <;> rfl
  | rule, .bool b, path => by simp only [validateArrayT]; split_ifs <;> rfl
  | rule, .int n, path => by simp only [validateArrayT]; split_ifs <;> rfl
  | rule, .float x, path => by simp only [validateArrayT]; split_ifs <;> rfl
  | rule, .str s, path => by simp only [validateArrayT]; split_ifs <;> rfl
  | rule, .dict es, path => by simp only [validateArrayT]; split_ifs <;> rfl
  | rule, .datetime y, path => by simp only [validateArrayT]; split_ifs <;> rfl
termination_by rule v path => (sizeOf v, 2, 1)
decreasing_by
  all_goals first
    | (apply Prod.Lex.left; exact pyGet_sizeOf _ _)
    | (simp [Prod.lex_def]; try omega)

theorem frame_validateObjectT : ∀ (rule : FieldRule) (v : Value) (path : String),
    (validateObjectT rule v path).2 = (rule, v)
  | rule, .dict es, path => by
    have hq := frame_validateQueryT (mkSchemaValidator rule.nested_schema)
      (.dict es) path
    simp only [mkSchemaValidator] at hq
    simp only [validateObjectT, mkSchemaValidator]
    split_ifs <;> simp [hq, setNested_self]
  | rule, .null, path => by simp [validateObjectT]
  | rule, .bool b, path => by simp [validateObjectT]
  | rule, .int n, path => by simp [validateObjectT]
  | rule, .float x, path => by simp [validateObjectT]
  | rule, .str s, path => by simp [validateObjectT]
  | rule, .list xs, path => by simp [validateObjectT]
  | rule, .datetime y, path => by simp [validateObjectT]
termination_by rule v path => (sizeOf v, 2, 1)
decreasing_by
  all_goals first
    | (apply Prod.Lex.left; exact pyGet_sizeOf _ _)
    | (simp [Prod.lex_def]; try omega)

theorem frame_validateItemsT : ∀ (itemType : FieldType) (xs : List Value)
    (path : String) (i : Nat), (validateItemsT itemType xs path i).2 = xs
  | itemType, [], path, i => by simp [validateItemsT]
  | itemType, item :: rest, path, i => by
    have hv := frame_validateValueT (mkFieldRule itemType) item
      (path ++ "[" ++ toString i ++ "]")
    have hr := frame_validateItemsT itemType rest path (i + 1)
    simp only [validateItemsT]
    cases h1 : (validateValueT (mkFieldRule itemType) item
        (path ++ "[" ++ toString i ++ "]")).1 <;>
      simp [h1, hv, hr]
termination_by itemType xs => (sizeOf xs, 1, 0)
decreasing_by
  all_goals first
    | (apply Prod.Lex.left; exact pyGet_sizeOf _ _)
    | (simp [Prod.lex_def]; try omega)

theorem frame_validateQueryT : ∀ (sv : SchemaValidator) (v : Value) (pfx : String),
    (validateQueryT sv v pfx).2 = (sv, v)
  | sv, .dict q, pfx => by
    have hf := frame_validateFieldsT sv.schema q pfx
    simp only [validateQueryT]
    split_ifs <;> simp [hf]
  | sv, .null, pfx => by simp [validateQueryT]
  | sv, .bool b, pfx => by simp [validateQueryT]
  | sv, .int n, pfx => by simp [validateQueryT]
  | sv, .float x, pfx => by simp [validateQueryT]
  | sv, .str s, pfx => by simp [validateQueryT]
  | sv, .list xs, pfx => by simp [validateQueryT]
  | sv, .datetime y, pfx => by simp [validateQueryT]
termination_by sv v => (sizeOf v, 2, 0)
decreasing_by
  all_goals first
    | (apply Prod.Lex.left; exact pyGet_sizeOf _ _)
    | (simp [Prod.lex_def]; try omega)

theorem frame_validateFieldsT : ∀ (fields : List (String × FieldRule))
    (q : List (String × Value)) (pfx : String),
    (validateFieldsT fields q pfx).2 = (fields, q)
  | [], q, pfx => by simp [validateFieldsT]
  | (fname, frule) :: rest, q, pfx => by
    have hv := frame_validateValueT frule (pyGet q fname) (joinPath pfx fname)
    have hr := frame_validateFieldsT rest q pfx
    simp only [validateFieldsT]
    cases h1 : (validateValueT frule (pyGet q fname) (joinPath pfx fname)).1 <;>
      simp [h1, hv, hr, setKeyIfPresent_self]
termination_by fields q => (sizeOf q + 1, 1, sizeOf fields)
decreasing_by
  all_goals first
    | (apply Prod.Lex.left; exact pyGet_sizeOf _ _)
    | (simp [Prod.lex_def]; try omega)
end

/-- C8: schema validation is read-only.  In the heap-discipline embedding,
running `validate_query` (and hence `validate_value`) returns the schema
validator, every reachable FieldRule, the query tree and its sub-values
unchanged, whether the run returns normally or raises. -/
theorem schema_validation_readonly :
    (∀ (rule : FieldRule) (v : Value) (path : String),
      (validateValueT rule v path).2 = (rule, v)) ∧
    (∀ (sv : SchemaValidator) (v : Value) (pfx : String),
      (validateQueryT sv v pfx).2 = (sv, v)) ∧
    (∀ (fields : List (String × FieldRule)) (q : List (String × Value)) (pfx : String),
      (validateFieldsT fields q pfx).2 = (fields, q)) ∧
    (∀ (itemType : FieldType) (xs : List Value) (path : String) (i : Nat),
      (validateItemsT itemType xs path i).2 = xs) :=
  ⟨fun rule v path => frame_validateValueT rule v path,
   fun sv v pfx => frame_validateQueryT sv v pfx,
   fun fields q pfx => frame_validateFieldsT fields q pfx,
   fun itemType xs path i => frame_validateItemsT itemType xs path i⟩

theorem isOperatorKey_where : isOperatorKey "$where" = true := by decide

theorem operatorPermitted_where (allowed : Option (List String)) :
    operatorPermitted allowed "$where" = false := by
  cases allowed <;> simp [operatorPermitted]

theorem append_ne_nil_of_left {α : Type} {a b : List α} (h : a ≠ []) :
    a ++ b ≠ [] := by
  intro hc
  rcases List.append_eq_nil.mp hc with ⟨h1, _⟩
  exact h h1

theorem append_ne_nil_of_right {α : Type} {a b : List α} (h : b ≠ []) :
    a ++ b ≠ [] := by
  intro hc
  rcases List.append_eq_nil.mp hc with ⟨_, h2⟩
  exact h h2

mutual
theorem strictOps_err : ∀ (allowed : Option (List String)) (v : Value)
    (path : List PathStep) (e : SanErr),
    filterOps allowed .strict v path = .error e →
    ∃ k p, e = .securityError k p ∧ isOperatorKey k = true ∧
      operatorPermitted allowed k = false
  | allowed, .dict es, path, e => by
    intro h
    simp only [filterOps] at h
    cases hes : filterOpsEntries allowed .strict es path with
    | error e2 =>
      rw [hes] at h
      simp at h
      subst h
      exact strictEntries_err allowed es path _ hes
    | ok pr =>
      obtain ⟨es2, rem⟩ := pr
      rw [hes] at h
      simp at h
  | allowed, .list xs, path, e => by
    intro h
    simp only [filterOps] at h
    cases hxs : filterOpsList allowed .strict xs path 0 with
    | error e2 =>
      rw [hxs] at h
      simp at h
      subst h
      exact strictList_err allowed xs path 0 _ hxs
    | ok pr =>
      obtain ⟨xs2, rem⟩ := pr
      rw [hxs] at h
      simp at h
  | allowed, .null, path, e => by intro h; simp [filterOps] at h
  | allowed, .bool b, path, e => by intro h; simp [filterOps] at h
  | allowed, .int n, path, e => by intro h; simp [filterOps] at h
  | allowed, .float x, path, e => by intro h; simp [filterOps] at h
  | allowed, .str s, path, e => by intro h; simp [filterOps] at h
  | allowed, .datetime y, path, e => by intro h; simp [filterOps] at h

theorem strictEntries_err : ∀ (allowed : Option (List String))
    (es : List (String × Value)) (path : List PathStep) (e : SanErr),
    filterOpsEntries allowed .strict es path = .error e →
    ∃ k p, e = .securityError k p ∧ isOperatorKey k = true ∧
      operatorPermitted allowed k = false
  | allowed, [], path, e => by
    intro h
    simp [filterOpsEntries] at h
  | allowed, (k, v) :: rest, path, e => by
    intro h
    simp only [filterOpsEntries] at h
    by_cases hc : (isOperatorKey k && !operatorPermitted allowed k) = true
    · rw [if_pos hc] at h
      simp at h
      obtain ⟨hca, hcb⟩ : isOperatorKey k = true ∧ operatorPermitted allowed k = false := by
        simpa using hc
      exact ⟨k, path ++ [.field k], h.symm, hca, hcb⟩
    · rw [if_neg hc] at h
      cases hv : filterOps allowed .strict v (path ++ [.field k]) with
      | error e2 =>
        rw [hv] at h
        simp at h
        subst h
        exact strictOps_err allowed v (path ++ [.field k]) _ hv
      | ok pr =>
        obtain ⟨v2, remv⟩ := pr
        rw [hv] at h
        cases hr : filterOpsEntries allowed .strict rest path with
        | error e2 =>
          rw [hr] at h
          simp at h
          subst h
          exact strictEntries_err allowed rest path _ hr
        | ok pr2 =>
          obtain ⟨rest2, rem2⟩ := pr2
          rw [hr] at h
          simp at h

theorem strictList_err : ∀ (allowed : Option (List String)) (xs : List Value)
    (path : List PathStep) (i : Nat) (e : SanErr),
    filterOpsList allowed .strict xs path i = .error e →
    ∃ k p, e = .securityError k p ∧ isOperatorKey k = true ∧
      operatorPermitted allowed k = false
  | allowed, [], path, i, e => by
    intro h
    simp [filterOpsList] at h
  | allowed, v :: rest, path, i, e => by
    intro h
    simp only [filterOpsList] at h
    cases hv : filterOps allowed .strict v (path ++ [.index i]) with
    | error e2 =>
      rw [hv] at h
      simp at h
      subst h
      exact strictOps_err allowed v (path ++ [.index i]) _ hv
    | ok pr =>
      obtain ⟨v2, remv⟩ := pr
      rw [hv] at h
      cases hr : filterOpsList allowed .strict rest path (i + 1) with
      | error e2 =>
        rw [hr] at h
        simp at h
        subst h
        exact strictList_err allowed rest path (i + 1) _ hr
      | ok pr2 =>
        obtain ⟨rest2, rem2⟩ := pr2
        rw [hr] at h
        simp at h
end

mutual
theorem strictOps_hits : ∀ (allowed : Option (List String)) (v : Value)
    (path : List PathStep),
    containsKey "$where" v = true →
    ∃ e, filterOps allowed .strict v path = .error e
  | allowed, .dict es, path => by
    intro h
    simp only [containsKey] at h
    obtain ⟨e, he⟩ := strictEntries_hits allowed es path h
    exact ⟨e, by simp [filterOps, he]⟩
  | allowed, .list xs, path => by
    intro h
    simp only [containsKey] at h
    obtain ⟨e, he⟩ := strictList_hits allowed xs path 0 h
    exact ⟨e, by simp [filterOps, he]⟩
  | allowed, .null, path => by intro h; simp [containsKey] at h
  | allowed, .bool b, path => by intro h; simp [containsKey] at h
  | allowed, .int n, path => by intro h; simp [containsKey] at h
  | allowed, .float x, path => by intro h; simp [containsKey] at h
  | allowed, .str s, path => by intro h; simp [containsKey] at h
  | allowed, .datetime y, path => by intro h; simp [containsKey] at h

theorem strictEntries_hits : ∀ (allowed : Option (List String))
    (es : List (String × Value)) (path : List PathStep),
    containsKeyEntries "$where" es = true →
    ∃ e, filterOpsEntries allowed .strict es path = .error e
  | allowed, [], path => by
    intro h
    simp [containsKeyEntries] at h
  | allowed, (k, v) :: rest, path => by
    intro h
    by_cases hc : (isOperatorKey k && !operatorPermitted allowed k) = true
    · exact ⟨.securityError k (path ++ [.field k]), by simp [filterOpsEntries, hc]⟩
    · have hkw : k ≠ "$where" := by
        intro heq
        subst heq
        simp [isOperatorKey_where, operatorPermitted_where] at hc
      simp only [containsKeyEntries, Bool.or_eq_true, decide_eq_true_eq] at h
      rcases h with (h | h) | h
      · exact absurd h hkw
      · obtain ⟨e, he⟩ := strictOps_hits allowed v (path ++ [.field k]) h
        exact ⟨e, by simp [filterOpsEntries, hc, he]⟩
      · cases hv : filterOps allowed .strict v (path ++ [.field k]) with
        | error e2 => exact ⟨e2, by simp [filterOpsEntries, hc, hv]⟩
        | ok pr =>
          obtain ⟨v2, remv⟩ := pr
          obtain ⟨e, he⟩ := strictEntries_hits allowed rest path h
          exact ⟨e, by simp [filterOpsEntries, hc, hv, he]⟩

theorem strictList_hits : ∀ (allowed : Option (List String)) (xs : List Value)
    (path : List PathStep) (i : Nat),
    containsKeyList "$where" xs = true →
    ∃ e, filterOpsList allowed .strict xs path i = .error e
  | allowed, [], path, i => by
    intro h
    simp [containsKeyList] at h
  | allowed, v :: rest, path, i => by
    intro h
    simp only [containsKeyList, Bool.or_eq_true] at h
    rcases h with h | h
    · obtain ⟨e, he⟩ := strictOps_hits allowed v (path ++ [.index i]) h
      exact ⟨e, by simp [filterOpsList, he]⟩
    · cases hv : filterOps allowed .strict v (path ++ [.index i]) with
      | error e2 => exact ⟨e2, by simp [filterOpsList, hv]⟩
      | ok pr =>
        obtain ⟨v2, remv⟩ := pr
        obtain ⟨e, he⟩ := strictList_hits allowed rest path (i + 1) h
        exact ⟨e, by simp [filterOpsList, hv, he]⟩
end

mutual
theorem lenientOps_ok : ∀ (allowed : Option (List String)) (v : Value)
    (path : List PathStep),
    ∃ r rem, filterOps allowed .lenient v path = .ok (r, rem) ∧
      containsKey "$where" r = false ∧
      (containsKey "$where" v = true → rem ≠ [])
  | allowed, .dict es, path => by
    obtain ⟨es2, rem, he, h2, h3⟩ := lenientEntries_ok allowed es path
    exact ⟨.dict es2, rem, by simp [filterOps, he], by simpa [containsKey] using h2,
      by simpa [containsKey] using h3⟩
  | allowed, .list xs, path => by
    obtain ⟨xs2, rem, he, h2, h3⟩ := lenientList_ok allowed xs path 0
    exact ⟨.list xs2, rem, by simp [filterOps, he], by simpa [containsKey] using h2,
      by simpa [containsKey] using h3⟩
  | allowed, .null, path => ⟨.null, [], rfl, rfl, by simp [containsKey]⟩
  | allowed, .bool b, path => ⟨.bool b, [], rfl, rfl, by simp [containsKey]⟩
  | allowed, .int n, path => ⟨.int n, [], rfl, rfl, by simp [containsKey]⟩
  | allowed, .float x, path => ⟨.float x, [], rfl, rfl, by simp [containsKey]⟩
  | allowed, .str s, path => ⟨.str s, [], rfl, rfl, by simp [containsKey]⟩
  | allowed, .datetime y, path => ⟨.datetime y, [], rfl, rfl, by simp [containsKey]⟩

theorem lenientEntries_ok : ∀ (allowed : Option (List String))
    (es : List (String × Value)) (path : List PathStep),
    ∃ es2 rem, filterOpsEntries allowed .lenient es path = .ok (es2, rem) ∧
      containsKeyEntries "$where" es2 = false ∧
      (containsKeyEntries "$where" es = true → rem ≠ [])
  | allowed, [], path => ⟨[], [], rfl, rfl, by simp [containsKeyEntries]⟩
  | allowed, (k, v) :: rest, path => by
    by_cases hc : (isOperatorKey k && !operatorPermitted allowed k) = true
    · obtain ⟨rest2, rem, hr, h2, h3⟩ := lenientEntries_ok allowed rest path
      exact ⟨rest2, ⟨path ++ [.field k], "operator " ++ k ++ " is not allowed"⟩ :: rem,
        by simp [filterOpsEntries, hc, hr], h2, fun _ => by simp⟩
    · have hkw : k ≠ "$where" := by
        intro heq
        subst heq
        simp [isOperatorKey_where, operatorPermitted_where] at hc
      obtain ⟨v2, remv, hv, hv2, hv3⟩ := lenientOps_ok allowed v (path ++ [.field k])
      obtain ⟨rest2, rem, hr, h2, h3⟩ := lenientEntries_ok allowed rest path
      refine ⟨(k, v2) :: rest2, remv ++ rem,
        by simp [filterOpsEntries, hc, hv, hr], ?_, ?_⟩
      · simp [containsKeyEntries, hkw, hv2, h2]
      · intro hin
        simp only [containsKeyEntries, Bool.or_eq_true, decide_eq_true_eq] at hin
        rcases hin with (h1 | h1) | h1
        · exact absurd h1 hkw
        · exact append_ne_nil_of_left (hv3 h1)
        · exact append_ne_nil_of_right (h3 h1)

theorem lenientList_ok : ∀ (allowed : Option (List String)) (xs : List Value)
    (path : List PathStep) (i : Nat),
    ∃ xs2 rem, filterOpsList allowed .lenient xs path i = .ok (xs2, rem) ∧
      containsKeyList "$where" xs2 = false ∧
      (containsKeyList "$where" xs = true → rem ≠ [])
  | allowed, [], path, i => ⟨[], [], rfl, rfl, by simp [containsKeyList]⟩
  | allowed, v :: rest, path, i => by
    obtain ⟨v2, remv, hv, hv2, hv3⟩ := lenientOps_ok allowed v (path ++ [.index i])
    obtain ⟨rest2, rem, hr, h2, h3⟩ := lenientList_ok allowed rest path (i + 1)
    refine ⟨v2 :: rest2, remv ++ rem,
      by simp [filterOpsList, hv, hr], ?_, ?_⟩
    · simp [containsKeyList, hv2, h2]
    · intro hin
      simp only [containsKeyList, Bool.or_eq_true] at hin
      rcases hin with h1 | h1
      · exact append_ne_nil_of_left (hv3 h1)
      · exact append_ne_nil_of_right (h3 h1)
end

theorem filter_cons_false {α : Type} (p : α → Bool) (a : α) (l : List α)
    (h : p a = false) : List.filter p (a :: l) = List.filter p l := by
  simp [List.filter_cons, h]

theorem filter_cons_true {α : Type} (p : α → Bool) (a : α) (l : List α)
    (h : p a = true) : List.filter p (a :: l) = a :: List.filter p l := by
  simp [List.filter_cons, h]

theorem filterOpsEntries_keys (allowed : Option (List String)) (mode : Mode)
    (es : List (String × Value)) :
    ∀ (path : List PathStep) (es2 : List (String × Value)) (rem : List RemovedItem),
    filterOpsEntries allowed mode es path = .ok (es2, rem) →
    es2.map Prod.fst = (es.map Prod.fst).filter
      (fun k => !(isOperatorKey k && !operatorPermitted allowed k)) := by
  induction es with
  | nil =>
    intro path es2 rem h
    simp only [filterOpsEntries] at h
    simp at h
    obtain ⟨h1, h2⟩ := h
    subst h1
    simp
  | cons e rest ih =>
    obtain ⟨k, v⟩ := e
    intro path es2 rem h
    simp only [filterOpsEntries] at h
    by_cases hc : (isOperatorKey k && !operatorPermitted allowed k) = true
    · rw [if_pos hc] at h
      cases mode with
      | strict => simp at h
      | lenient =>
        cases hr : filterOpsEntries allowed .lenient rest path with
        | error e2 => rw [hr] at h; simp at h
        | ok pr =>
          obtain ⟨rest2, rem2⟩ := pr
          rw [hr] at h
          simp at h
          obtain ⟨h1, h2⟩ := h
          subst h1
          simp only [List.map_cons]
          rw [filter_cons_false _ _ _ (by simp [hc])]
          exact ih path rest2 rem2 hr
    · have hcf : (isOperatorKey k && !operatorPermitted allowed k) = false := by
        cases h0 : (isOperatorKey k && !operatorPermitted allowed k) <;> simp_all
      rw [if_neg hc] at h
      cases hv : filterOps allowed mode v (path ++ [.field k]) with
      | error e2 => rw [hv] at h; simp at h
      | ok pr =>
        obtain ⟨v2, remv⟩ := pr
        rw [hv] at h
        cases hr : filterOpsEntries allowed mode rest path with
        | error e2 => rw [hr] at h; simp at h
        | ok pr2 =>
          obtain ⟨rest2, rem2⟩ := pr2
          rw [hr] at h
          simp at h
          obtain ⟨h1, h2⟩ := h
          subst h1
          simp only [List.map_cons]
          rw [filter_cons_true _ _ _ (by simp [hcf]), ih path rest2 rem2 hr]

/-- C1: the operator key `$where` is never permitted by OperatorFilter.  No
allow-list configuration permits it; in strict mode a document containing a
`$where` key at any path is rejected with a SecurityError identifying a
non-permitted operator key; in lenient mode filtering always succeeds, the
returned tree contains no `$where` key anywhere, and a removed item is
recorded whenever the input contained one; and on every successful entry
filtering the surviving keys are exactly the input keys that are not
non-permitted operator keys, so non-operator sibling keys are preserved. -/
theorem operator_where_never_permitted :
    (∀ allowed : Option (List String), operatorPermitted allowed "$where" = false) ∧
    (∀ (allowed : Option (List String)) (v : Value) (path : List PathStep),
      containsKey "$where" v = true →
      ∃ k p, filterOps allowed .strict v path = .error (.securityError k p) ∧
        isOperatorKey k = true ∧ operatorPermitted allowed k = false) ∧
    (∀ (allowed : Option (List String)) (v : Value) (path : List PathStep),
      ∃ r rem, filterOps allowed .lenient v path = .ok (r, rem) ∧
        containsKey "$where" r = false ∧
        (containsKey "$where" v = true → rem ≠ [])) ∧
    (∀ (allowed : Option (List String)) (mode : Mode) (es : List (String × Value))
        (path : List PathStep) (es2 : List (String × Value)) (rem : List RemovedItem),
      filterOpsEntries allowed mode es path = .ok (es2, rem) →
      es2.map Prod.fst = (es.map Prod.fst).filter
        (fun k => !(isOperatorKey k && !operatorPermitted allowed k))) := by
  refine ⟨operatorPermitted_where, ?_, lenientOps_ok, ?_⟩
  · intro allowed v path h
    obtain ⟨e, he⟩ := strictOps_hits allowed v path h
    obtain ⟨k, p, rfl, h1, h2⟩ := strictOps_err allowed v path e he
    exact ⟨k, p, he, h1, h2⟩
  · intro allowed mode es path es2 rem h
    exact filterOpsEntries_keys allowed mode es path es2 rem h

/-- Witness for C1 at a concrete document holding a `$where` key next to a
data sibling: strict filtering errors with a SecurityError on a
non-permitted operator key, and lenient entry filtering keeps exactly the
sibling key. -/
theorem operator_where_never_permitted_witness :
    (∃ k p, filterOps none .strict
        (.dict [("age", .int 3), ("$where", .str "function() \x7b return true; \x7d")])
        [] = .error (.securityError k p) ∧
      isOperatorKey k = true ∧ operatorPermitted none k = false) ∧
    List.map Prod.fst [("age", Value.int 3)] =
      (List.map Prod.fst [("age", Value.int 3),
        ("$where", Value.str "function() \x7b return true; \x7d")]).filter
        (fun k => !(isOperatorKey k && !operatorPermitted none k)) :=
  ⟨operator_where_never_permitted.2.1 none
      (.dict [("age", .int 3), ("$where", .str "function() \x7b return true; \x7d")])
      [] (by decide),
   operator_where_never_permitted.2.2.2 none .lenient
      [("age", Value.int 3), ("$where", Value.str "function() \x7b return true; \x7d")]
      [] [("age", Value.int 3)]
      [⟨[.field "$where"], "operator $where is not allowed"⟩] rfl⟩

theorem dictGet_some_mem_keys : ∀ (q : List (String × Value)) (f : String) (v : Value),
    dictGet q f = some v → f ∈ q.map Prod.fst
  | [], f, v => by
    intro h
    simp [dictGet] at h
  | (k, w) :: rest, f, v => by
    intro h
    simp only [dictGet] at h
    by_cases hk : k = f
    · subst hk
      simp
    · rw [if_neg hk] at h
      simp [dictGet_some_mem_keys rest f v h]

mutual
theorem patternScan_ok : ∀ (detectors : List (String × (String → Bool)))
    (v : Value) (path : List PathStep) (r : Value),
    patternScan detectors v path = .ok r → r = v
  | detectors, .str s, path, r => by
    intro h
    simp only [patternScan] at h
    cases hf : List.find? (fun d => d.2 s) detectors with
    | some hit => rw [hf] at h; simp at h
    | none => rw [hf] at h; simp at h; exact h.symm
  | detectors, .dict es, path, r => by
    intro h
    simp only [patternScan] at h
    cases he : patternScanEntries detectors es path with
    | error e => rw [he] at h; simp at h
    | ok es2 =>
      rw [he] at h
      simp at h
      rw [← h, patternScanEntries_ok detectors es path es2 he]
  | detectors, .list xs, path, r => by
    intro h
    simp only [patternScan] at h
    cases he : patternScanList detectors xs path 0 with
    | error e => rw [he] at h; simp at h
    | ok xs2 =>
      rw [he] at h
      simp at h
      rw [← h, patternScanList_ok detectors xs path 0 xs2 he]
  | detectors, .null, path, r => by
    intro h
    simp only [patternScan] at h
    simp at h
    exact h.symm
  | detectors, .bool b, path, r => by
    intro h
    simp only [patternScan] at h
    simp at h
    exact h.symm
  | detectors, .int n, path, r => by
    intro h
    simp only [patternScan] at h
    simp at h
    exact h.symm
  | detectors, .float x, path, r => by
    intro h
    simp only [patternScan] at h
    simp at h
    exact h.symm
  | detectors, .datetime y, path, r => by
    intro h
    simp only [patternScan] at h
    simp at h
    exact h.symm

theorem patternScanEntries_ok : ∀ (detectors : List (String × (String → Bool)))
    (es : List (String × Value)) (path : List PathStep)
    (r : List (String × Value)),
    patternScanEntries detectors es path = .ok r → r = es
  | detectors, [], path, r => by
    intro h
    simp [patternScanEntries] at h
    exact h
  | detectors, (k, v) :: rest, path, r => by
    intro h
    simp only [patternScanEntries] at h
    cases hv : patternScan detectors v (path ++ [.field k]) with
    | error e => rw [hv] at h; simp at h
    | ok v2 =>
      rw [hv] at h
      cases hr : patternScanEntries detectors rest path with
      | error e => rw [hr] at h; simp at h
      | ok rest2 =>
        rw [hr] at h
        simp at h
        rw [← h, patternScan_ok detectors v (path ++ [.field k]) v2 hv,
          patternScanEntries_ok detectors rest path rest2 hr]

theorem patternScanList_ok : ∀ (detectors : List (String × (String → Bool)))
    (xs : List Value) (path : List PathStep) (i : Nat) (r : List Value),
    patternScanList detectors xs path i = .ok r → r = xs
  | detectors, [], path, i, r => by
    intro h
    simp [patternScanList] at h
    exact h
  | detectors, v :: rest, path, i, r => by
    intro h
    simp only [patternScanList] at h
    cases hv : patternScan detectors v (path ++ [.index i]) with
    | error e => rw [hv] at h; simp at h
    | ok v2 =>
      rw [hv] at h
      cases hr : patternScanList detectors rest path (i + 1) with
      | error e => rw [hr] at h; simp at h
      | ok rest2 =>
        rw [hr] at h
        simp at h
        rw [← h, patternScan_ok detectors v (path ++ [.index i]) v2 hv,
          patternScanList_ok detectors rest path (i + 1) rest2 hr]
end

mutual
theorem patternScan_err : ∀ (detectors : List (String × (String → Bool)))
    (v : Value) (p0 : List PathStep) (e : SanErr),
    patternScan detectors v p0 = .error e →
    wellFormed v = true →
    ∃ nm pred suffix s, e = .patternError nm (p0 ++ suffix) ∧
      (nm, pred) ∈ detectors ∧ lookupPath v suffix = some (.str s) ∧ pred s = true
  | detectors, .str s, p0, e => by
    intro h hw
    simp only [patternScan] at h
    cases hf : List.find? (fun d => d.2 s) detectors with
    | some hit =>
      rw [hf] at h
      simp at h
      refine ⟨hit.1, hit.2, [], s, by simp [← h], ?_, by simp [lookupPath], ?_⟩
      · have hm := List.mem_of_find?_eq_some hf
        simpa using hm
      · have hp := List.find?_some hf
        simpa using hp
    | none => rw [hf] at h; simp at h
  | detectors, .dict es, p0, e => by
    intro h hw
    simp only [patternScan] at h
    cases he : patternScanEntries detectors es p0 with
    | error e2 =>
      rw [he] at h
      simp at h
      subst h
      simp only [wellFormed, Bool.and_eq_true] at hw
      obtain ⟨nm, pred, k, suffix, s, vsub, h1, h2, h3, h4, h5⟩ :=
        patternScanEntries_err detectors es p0 e2 he hw.1 hw.2
      exact ⟨nm, pred, .field k :: suffix, s, by simpa [List.append_assoc] using h1, h2,
        by simp [lookupPath, h3, h4], h5⟩
    | ok es2 => rw [he] at h; simp at h
  | detectors, .list xs, p0, e => by
    intro h hw
    simp only [patternScan] at h
    cases he : patternScanList detectors xs p0 0 with
    | error e2 =>
      rw [he] at h
      simp at h
      subst h
      simp only [wellFormed] at hw
      obtain ⟨nm, pred, j, suffix, s, vsub, h1, h2, h3, h4, h5⟩ :=
        patternScanList_err detectors xs p0 0 e2 he hw
      exact ⟨nm, pred, .index j :: suffix, s, by simpa [List.append_assoc] using h1, h2, by
        simp only [List.get?_eq_getElem?] at h3
        simp [lookupPath, h3, h4], h5⟩
    | ok xs2 => rw [he] at h; simp at h
  | detectors, .null, p0, e => by
    intro h hw
    simp [patternScan] at h
  | detectors, .bool b, p0, e => by
    intro h hw
    simp [patternScan] at h
  | detectors, .int n, p0, e => by
    intro h hw
    simp [patternScan] at h
  | detectors, .float x, p0, e => by
    intro h hw
    simp [patternScan] at h
  | detectors, .datetime y, p0, e => by
    intro h hw
    simp [patternScan] at h

theorem patternScanEntries_err : ∀ (detectors : List (String × (String → Bool)))
    (es : List (String × Value)) (p0 : List PathStep) (e : SanErr),
    patternScanEntries detectors es p0 = .error e →
    nodupKeys (es.map Prod.fst) = true →
    wellFormedEntries es = true →
    ∃ nm pred k suffix s vsub, e = .patternError nm (p0 ++ [.field k] ++ suffix) ∧
      (nm, pred) ∈ detectors ∧ dictGet es k = some vsub ∧
      lookupPath vsub suffix = some (.str s) ∧ pred s = true
  | detectors, [], p0, e => by
    intro h hn hw
    simp [patternScanEntries] at h
  | detectors, (k, v) :: rest, p0, e => by
    intro h hn hw
    simp only [wellFormedEntries, Bool.and_eq_true] at hw
    simp only [List.map_cons, nodupKeys, Bool.and_eq_true] at hn
    simp only [patternScanEntries] at h
    cases hv : patternScan detectors v (p0 ++ [.field k]) with
    | error e2 =>
      rw [hv] at h
      simp at h
      subst h
      obtain ⟨nm, pred, suffix, s, h1, h2, h3, h4⟩ :=
        patternScan_err detectors v (p0 ++ [.field k]) e2 hv hw.1
      exact ⟨nm, pred, k, suffix, s, v, h1, h2, by simp [dictGet], h3, h4⟩
    | ok v2 =>
      rw [hv] at h
      cases hr : patternScanEntries detectors rest p0 with
      | error e2 =>
        rw [hr] at h
        simp at h
        subst h
        obtain ⟨nm, pred, k2, suffix, s, vsub, h1, h2, h3, h4, h5⟩ :=
          patternScanEntries_err detectors rest p0 e2 hr hn.2 hw.2
        have hk2 : k2 ∈ rest.map Prod.fst := dictGet_some_mem_keys rest k2 vsub h3
        have hne : ¬(k = k2) := by
          intro heq
          subst heq
          rw [(containsStr_iff_mem (rest.map Prod.fst) k).mpr hk2] at hn
          simp at hn
        exact ⟨nm, pred, k2, suffix, s, vsub, h1, h2,
          by simp [dictGet, hne, h3], h4, h5⟩
      | ok rest2 => rw [hr] at h; simp at h

theorem patternScanList_err : ∀ (detectors : List (String × (String → Bool)))
    (xs : List Value) (p0 : List PathStep) (i : Nat) (e : SanErr),
    patternScanList detectors xs p0 i = .error e →
    wellFormedList xs = true →
    ∃ nm pred j suffix s vsub, e = .patternError nm (p0 ++ [.index (i + j)] ++ suffix) ∧
      (nm, pred) ∈ detectors ∧ xs.get? j = some vsub ∧
      lookupPath vsub suffix = some (.str s) ∧ pred s = true
  | detectors, [], p0, i, e => by
    intro h hw
    simp [patternScanList] at h
  | detectors, v :: rest, p0, i, e => by
    intro h hw
    simp only [wellFormedList, Bool.and_eq_true] at hw
    simp only [patternScanList] at h
    cases hv : patternScan detectors v (p0 ++ [.index i]) with
    | error e2 =>
      rw [hv] at h
      simp at h
      subst h
      obtain ⟨nm, pred, suffix, s, h1, h2, h3, h4⟩ :=
        patternScan_err detectors v (p0 ++ [.index i]) e2 hv hw.1
      exact ⟨nm, pred, 0, suffix, s, v, by simpa using h1, h2, by simp, h3, h4⟩
    | ok v2 =>
      rw [hv] at h
      cases hr : patternScanList detectors rest p0 (i + 1) with
      | error e2 =>
        rw [hr] at h
        simp at h
        subst h
        obtain ⟨nm, pred, j, suffix, s, vsub, h1, h2, h3, h4, h5⟩ :=
          patternScanList_err detectors rest p0 (i + 1) e2 hr hw.2
        refine ⟨nm, pred, j + 1, suffix, s, vsub, ?_, h2, by simpa using h3, h4, h5⟩
        have harith : i + (j + 1) = i + 1 + j := by omega
        rw [harith]
        exact h1
      | ok rest2 => rw [hr] at h; simp at h
end

mutual
theorem patternScan_hits : ∀ (detectors : List (String × (String → Bool)))
    (v : Value) (path : List PathStep),
    hasHit detectors v = true →
    ∃ e, patternScan detectors v path = .error e
  | detectors, .str s, path => by
    intro h
    simp only [hasHit] at h
    cases hf : List.find? (fun d => d.2 s) detectors with
    | some hit => exact ⟨.patternError hit.1 path, by simp [patternScan, hf]⟩
    | none =>
      exfalso
      rw [List.any_eq_true] at h
      obtain ⟨d, hd, hp⟩ := h
      have := List.find?_eq_none.mp hf d hd
      exact this hp
  | detectors, .dict es, path => by
    intro h
    simp only [hasHit] at h
    obtain ⟨e, he⟩ := patternScanEntries_hits detectors es path h
    exact ⟨e, by simp [patternScan, he]⟩
  | detectors, .list xs, path => by
    intro h
    simp only [hasHit] at h
    obtain ⟨e, he⟩ := patternScanList_hits detectors xs path 0 h
    exact ⟨e, by simp [patternScan, he]⟩
  | detectors, .null, path => by intro h; simp [hasHit] at h
  | detectors, .bool b, path => by intro h; simp [hasHit] at h
  | detectors, .int n, path => by intro h; simp [hasHit] at h
  | detectors, .float x, path => by intro h; simp [hasHit] at h
  | detectors, .datetime y, path => by intro h; simp [hasHit] at h

theorem patternScanEntries_hits : ∀ (detectors : List (String × (String → Bool)))
    (es : List (String × Value)) (path : List PathStep),
    hasHitEntries detectors es = true →
    ∃ e, patternScanEntries detectors es path = .error e
  | detectors, [], path => by intro h; simp [hasHitEntries] at h
  | detectors, (k, v) :: rest, path => by
    intro h
    simp only [hasHitEntries, Bool.or_eq_true] at h
    rcases h with h | h
    · obtain ⟨e, he⟩ := patternScan_hits detectors v (path ++ [.field k]) h
      exact ⟨e, by simp [patternScanEntries, he]⟩
    · cases hv : patternScan detectors v (path ++ [.field k]) with
      | error e2 => exact ⟨e2, by simp [patternScanEntries, hv]⟩
      | ok v2 =>
        obtain ⟨e, he⟩ := patternScanEntries_hits detectors rest path h
        exact ⟨e, by simp [patternScanEntries, hv, he]⟩

theorem patternScanList_hits : ∀ (detectors : List (String × (String → Bool)))
    (xs : List Value) (path : List PathStep) (i : Nat),
    hasHitList detectors xs = true →
    ∃ e, patternScanList detectors xs path i = .error e
  | detectors, [], path, i => by intro h; simp [hasHitList] at h
  | detectors, v :: rest, path, i => by
    intro h
    simp only [hasHitList, Bool.or_eq_true] at h
    rcases h with h | h
    · obtain ⟨e, he⟩ := patternScan_hits detectors v (path ++ [.index i]) h
      exact ⟨e, by simp [patternScanList, he]⟩
    · cases hv : patternScan detectors v (path ++ [.index i]) with
      | error e2 => exact ⟨e2, by simp [patternScanList, hv]⟩
      | ok v2 =>
        obtain ⟨e, he⟩ := patternScanList_hits detectors rest path (i + 1) h
        exact ⟨e, by simp [patternScanList, hv, he]⟩
end

/-- C2: PatternValidator always raises on detection, in both strict and
lenient orchestrator modes.  Its behaviour does not depend on the mode; a
scan that returns normally returns the tree unchanged (content is never
removed or repaired); and on a well-formed input containing a string leaf
matched by some danger detector it raises a PatternError carrying a detector
name and the path of an offending leaf: the path resolves inside the input
to a string matched by that detector. -/
theorem pattern_validator_always_raises :
    (∀ (detectors : List (String × (String → Bool))) (m1 m2 : Mode) (v : Value),
      patternValidate detectors m1 v = patternValidate detectors m2 v) ∧
    (∀ (detectors : List (String × (String → Bool))) (mode : Mode) (v r : Value),
      patternValidate detectors mode v = .ok r → r = v) ∧
    (∀ (detectors : List (String × (String → Bool))) (mode : Mode) (v : Value),
      wellFormed v = true → hasHit detectors v = true →
      ∃ nm pred p s, patternValidate detectors mode v = .error (.patternError nm p) ∧
        (nm, pred) ∈ detectors ∧ lookupPath v p = some (.str s) ∧ pred s = true) := by
  refine ⟨fun detectors m1 m2 v => rfl, ?_, ?_⟩
  · intro detectors mode v r h
    exact patternScan_ok detectors v [] r h
  · intro detectors mode v hw hh
    obtain ⟨e, he⟩ := patternScan_hits detectors v [] hh
    obtain ⟨nm, pred, suffix, s, h1, h2, h3, h4⟩ :=
      patternScan_err detectors v [] e he hw
    subst h1
    exact ⟨nm, pred, suffix, s, by simpa [patternValidate] using he, h2, h3, h4⟩

/-- Witness for C2 at a concrete catalog and document: the script-tag
detector fires on a dictionary holding the classic script-tag payload, in
strict mode. -/
theorem pattern_validator_always_raises_witness :
    ∃ nm pred p s,
      patternValidate [("script_tag", fun t => t == "<script>alert(1)</script>")]
        .strict (.dict [("comment", .str "<script>alert(1)</script>")]) =
        .error (.patternError nm p) ∧
      (nm, pred) ∈ [("script_tag", fun t => t == "<script>alert(1)</script>")] ∧
      lookupPath (.dict [("comment", .str "<script>alert(1)</script>")]) p =
        some (.str s) ∧ pred s = true :=
  pattern_validator_always_raises.2.2
    [("script_tag", fun t => t == "<script>alert(1)</script>")] .strict
    (.dict [("comment", .str "<script>alert(1)</script>")])
    (by decide) (by decide)
